import Mathlib

/-!
Tic-tac-toe (`src/main.cpp`): board, computer heuristic, game loop.

A shallow embedding of `Board`, `ComputerPlayer` and `TicTacToeGame` from `src/main.cpp`.

* C++ `int` coordinates are `Int`; C++ `char` cell contents are `Char`, the blank
  character `' '` marking an empty cell.
* `Board::getCell` throws `std::out_of_range`; every function that may call it returns
  in `Except BoardError`.
* `Board::placeMark` mutates the grid and returns a `bool`; here it returns the pair of
  the returned flag and the grid afterwards.
* `for (int i = 0; i < BOARD_SIZE; ++i)` is a traversal of `indices = [0, 1, 2]`.
* `TicTacToeGame::start` is its loop body (`chooseMove`, then `applyMove`) iterated over the
  pairs typed at the prompt; console output is left out.
-/

namespace TicTacToe

/-! ## Board -/

/-- The constant `constexpr int BOARD_SIZE = 3;`. -/
abbrev BOARD_SIZE : Nat := 3

/-- The exception of `Board::getCell`, `std::out_of_range("Invalid board position")`. -/
inductive BoardError where
  | outOfRange
  deriving DecidableEq, Repr

deriving instance DecidableEq for Except

/-- The class `Board`: its only member is `char grid[BOARD_SIZE][BOARD_SIZE]`. -/
structure Board where
  grid : Fin BOARD_SIZE → Fin BOARD_SIZE → Char

/-- The constructor `Board::Board()`: both loops write `' '` into every cell. -/
def Board.new : Board :=
  ⟨fun _ _ => ' '⟩

/-- The range test shared by `placeMark` and `getCell`:
`row < 0 || row >= BOARD_SIZE || col < 0 || col >= BOARD_SIZE`. -/
def outside (row col : Int) : Prop :=
  row < 0 ∨ row ≥ (BOARD_SIZE : Int) ∨ col < 0 ∨ col ≥ (BOARD_SIZE : Int)

instance outsideDecidable (row col : Int) : Decidable (outside row col) := by
  unfold outside; infer_instance

/-- The array index of a coordinate that passed the range test. -/
def rowIndex {row col : Int} (h : ¬ outside row col) : Fin BOARD_SIZE :=
  ⟨row.toNat, by unfold outside at h; simp only [BOARD_SIZE] at h ⊢; omega⟩

/-- The array index of a coordinate that passed the range test. -/
def colIndex {row col : Int} (h : ¬ outside row col) : Fin BOARD_SIZE :=
  ⟨col.toNat, by unfold outside at h; simp only [BOARD_SIZE] at h ⊢; omega⟩

/-- The assignment `grid[i][j] = mark`. -/
def Board.assign (b : Board) (i j : Fin BOARD_SIZE) (mark : Char) : Board :=
  ⟨fun i' j' => if i' = i ∧ j' = j then mark else b.grid i' j'⟩

/-- The method `Board::placeMark(row, col, mark)`: the returned flag and the board afterwards. -/
def Board.placeMark (b : Board) (row col : Int) (mark : Char) : Bool × Board :=
  if h : outside row col then (false, b)
  else if b.grid (rowIndex h) (colIndex h) ≠ ' ' then (false, b)
  else (true, b.assign (rowIndex h) (colIndex h) mark)

/-- The method `Board::getCell(row, col)`. -/
def Board.getCell (b : Board) (row col : Int) : Except BoardError Char :=
  if h : outside row col then .error .outOfRange
  else .ok (b.grid (rowIndex h) (colIndex h))

/-- The method `Board::checkWin(mark)`: the loop over rows and columns, then the diagonals. -/
def Board.checkWin (b : Board) (mark : Char) : Bool :=
  if (List.finRange BOARD_SIZE).any (fun i =>
      (b.grid i 0 == mark && b.grid i 1 == mark && b.grid i 2 == mark) ||
      (b.grid 0 i == mark && b.grid 1 i == mark && b.grid 2 i == mark)) then true
  else if (b.grid 0 0 == mark && b.grid 1 1 == mark && b.grid 2 2 == mark) ||
      (b.grid 0 2 == mark && b.grid 1 1 == mark && b.grid 2 0 == mark) then true
  else false

/-- The method `Board::isFull()`: `false` as soon as a blank cell is met, `true` otherwise. -/
def Board.isFull (b : Board) : Bool :=
  if (List.finRange BOARD_SIZE).any (fun i =>
      (List.finRange BOARD_SIZE).any (fun j => b.grid i j == ' ')) then false
  else true

/-! ## Loops -/

/-- The values taken by the counter of `for (int i = 0; i < BOARD_SIZE; ++i)`. -/
def indices : List Int :=
  (List.range BOARD_SIZE).map Int.ofNat

/-- A `for` loop that updates a local variable and may throw. -/
def loopFold {σ : Type} (body : Int → σ → Except BoardError σ) :
    List Int → σ → Except BoardError σ
  | [], s => .ok s
  | i :: rest, s =>
    match body i s with
    | .error e => .error e
    | .ok s' => loopFold body rest s'

/-- A `for` loop whose body may `return` a value (`some`), fall through (`none`) or throw. -/
def loopFind {α : Type} (body : Int → Except BoardError (Option α)) :
    List Int → Except BoardError (Option α)
  | [] => .ok none
  | i :: rest =>
    match body i with
    | .error e => .error e
    | .ok (some r) => .ok (some r)
    | .ok none => loopFind body rest

/-! ## ComputerPlayer -/

/-- The class `ComputerPlayer`: members `name` and `mark`. -/
structure ComputerPlayer where
  name : String
  mark : Char

/-- The constructor `ComputerPlayer(char playerMark)`. -/
def ComputerPlayer.new (playerMark : Char) : ComputerPlayer :=
  ⟨"Computer", playerMark⟩

/-- The private helper `ComputerPlayer::wouldWin(board, row, col, playerMark)`. -/
def ComputerPlayer.wouldWin (_p : ComputerPlayer) (board : Board) (row col : Int)
    (playerMark : Char) : Except BoardError Bool :=
  match loopFold (fun i t => loopFold (fun j t' =>
      match board.getCell i j with
      | .error e => .error e
      | .ok ch => .ok (t'.placeMark i j ch).2) indices t) indices Board.new with
  | .error e => .error e
  | .ok tempBoard =>
    if (tempBoard.placeMark row col playerMark).1 then
      .ok ((tempBoard.placeMark row col playerMark).2.checkWin playerMark)
    else .ok false

/-- The body of the two probing loops of `getBestMove`:
`if (board.getCell(i, j) == ' ' && wouldWin(board, i, j, m)) return {{i, j}};`. -/
def ComputerPlayer.probe (p : ComputerPlayer) (board : Board) (m : Char) (i j : Int) :
    Except BoardError (Option (Int × Int)) :=
  match board.getCell i j with
  | .error e => .error e
  | .ok ch =>
    if ch = ' ' then
      match p.wouldWin board i j m with
      | .error e => .error e
      | .ok true => .ok (some (i, j))
      | .ok false => .ok none
    else .ok none

/-- The body of the corner loop and of the last loop of `getBestMove`:
`if (board.getCell(i, j) == ' ') return {{i, j}};`. -/
def ComputerPlayer.takeIfEmpty (board : Board) (i j : Int) :
    Except BoardError (Option (Int × Int)) :=
  match board.getCell i j with
  | .error e => .error e
  | .ok ch => if ch = ' ' then .ok (some (i, j)) else .ok none

/-- The array `corners[] = {{0,0}, {0,2}, {2,0}, {2,2}}` of `getBestMove`. -/
def corners : List (Int × Int) :=
  [(0, 0), (0, 2), (2, 0), (2, 2)]

/-- The range-based loop over `corners` of `getBestMove`. -/
def ComputerPlayer.cornerLoop (board : Board) :
    List (Int × Int) → Except BoardError (Option (Int × Int))
  | [] => .ok none
  | corner :: rest =>
    match ComputerPlayer.takeIfEmpty board corner.1 corner.2 with
    | .error e => .error e
    | .ok (some r) => .ok (some r)
    | .ok none => ComputerPlayer.cornerLoop board rest

/-- The method `ComputerPlayer::getBestMove(board)`; `.ok none` is `std::nullopt`. -/
def ComputerPlayer.getBestMove (p : ComputerPlayer) (board : Board) :
    Except BoardError (Option (Int × Int)) :=
  let opponentMark : Char := if p.mark = 'X' then 'O' else 'X'
  -- Try to find a winning move
  match loopFind (fun i => loopFind (fun j => p.probe board p.mark i j) indices) indices with
  | .error e => .error e
  | .ok (some r) => .ok (some r)
  | .ok none =>
  -- Try to block opponent's winning move
  match loopFind (fun i => loopFind (fun j => p.probe board opponentMark i j) indices)
      indices with
  | .error e => .error e
  | .ok (some r) => .ok (some r)
  | .ok none =>
  -- Try to take center
  match board.getCell 1 1 with
  | .error e => .error e
  | .ok ch =>
  if ch = ' ' then .ok (some (1, 1))
  else
  -- Try to take corners
  match ComputerPlayer.cornerLoop board corners with
  | .error e => .error e
  | .ok (some r) => .ok (some r)
  | .ok none =>
  -- Take any available space
  loopFind (fun i => loopFind (fun j => ComputerPlayer.takeIfEmpty board i j) indices) indices

/-! ## TicTacToeGame -/

/-- An object behind the interface `IPlayer` (`Player` or `ComputerPlayer`): what `getName()`
and `getMark()` return. -/
structure IPlayer where
  name : String
  mark : Char
  deriving DecidableEq

/-- The cast `static_cast<const ComputerPlayer*>(currentPlayer)` of `start`. -/
def IPlayer.asComputer (pl : IPlayer) : ComputerPlayer :=
  ⟨pl.name, pl.mark⟩

/-- Where the control of `TicTacToeGame::start` is: in the loop waiting for the next move,
returned after printing `... wins!` for `winner`, or returned after `It's a draw!`. -/
inductive Status where
  | awaitingMove
  | won (winner : IPlayer)
  | draw
  deriving DecidableEq

/-- The exceptions that leave `TicTacToeGame::start`: the `std::out_of_range` of `getCell` and
`std::runtime_error("Computer failed to find a valid move")`. -/
inductive GameError where
  | outOfRange
  | computerNoMove
  deriving DecidableEq, Repr

/-- The class `TicTacToeGame` while `start` runs: the members `board`, `player1`, `player2`,
`currentPlayer` (as the flag `currentPlayer == &player1`) and `isVsComputer`, with the control
state of `start`. -/
structure TicTacToeGame where
  board : Board
  player1 : IPlayer
  player2 : IPlayer
  currentIsPlayer1 : Bool
  isVsComputer : Bool
  status : Status

/-- The constructor `TicTacToeGame(b, p1, p2, vsComputer)`: `currentPlayer(&player1)`. -/
def TicTacToeGame.new (b : Board) (p1 p2 : IPlayer) (vsComputer : Bool) : TicTacToeGame :=
  ⟨b, p1, p2, true, vsComputer, .awaitingMove⟩

/-- The object `*currentPlayer`. -/
def TicTacToeGame.currentPlayer (g : TicTacToeGame) : IPlayer :=
  if g.currentIsPlayer1 then g.player1 else g.player2

/-- The game that `main` builds for the menu choice `1` or `2`. -/
def mainGame (choice : Int) : TicTacToeGame :=
  TicTacToeGame.new Board.new ⟨"Player 1", 'X'⟩
    (if choice = 1 then ⟨"Player 2", 'O'⟩
      else ⟨(ComputerPlayer.new 'O').name, (ComputerPlayer.new 'O').mark⟩)
    (decide (choice = 2))

/-- The first half of the loop body of `start`: the move of the iteration. On a computer turn
it is the result of `getBestMove`; otherwise it is `input`, the pair the prompt loop ends
with. -/
def TicTacToeGame.chooseMove (g : TicTacToeGame) (input : Int × Int) :
    Except GameError (Int × Int) :=
  if g.isVsComputer && g.currentPlayer.name == "Computer" then
    match g.currentPlayer.asComputer.getBestMove g.board with
    | .error _ => .error .outOfRange
    | .ok none => .error .computerNoMove
    | .ok (some move) => .ok move
  else .ok input

/-- The second half of the loop body of `start`, from `board.placeMark(row, col, ...)` to
`// Switch player`. -/
def TicTacToeGame.applyMove (g : TicTacToeGame) (row col : Int) : TicTacToeGame :=
  let placed := g.board.placeMark row col g.currentPlayer.mark
  if !placed.1 then
    -- "Invalid move. Try again."; continue
    { g with board := placed.2 }
  else if placed.2.checkWin g.currentPlayer.mark then
    { g with board := placed.2, status := .won g.currentPlayer }
  else if placed.2.isFull then
    { g with board := placed.2, status := .draw }
  else
    { g with board := placed.2,
             currentIsPlayer1 := if g.currentIsPlayer1 then false else true }

/-- One iteration of the loop `while (true)` of `start`. -/
def TicTacToeGame.turn (g : TicTacToeGame) (input : Int × Int) :
    Except GameError TicTacToeGame :=
  match g.chooseMove input with
  | .error e => .error e
  | .ok move => .ok (g.applyMove move.1 move.2)

/-- The method `TicTacToeGame::start` run for as many iterations as `inputs` is long (or
until it returns); the entry of an iteration is what a human would type in it. -/
def TicTacToeGame.start (g : TicTacToeGame) : List (Int × Int) → Except GameError TicTacToeGame
  | [] => .ok g
  | input :: rest =>
    match g.status with
    | .awaitingMove =>
      match g.turn input with
      | .error e => .error e
      | .ok g' => TicTacToeGame.start g' rest
    | _ => .ok g

/-! ## Vocabulary of the statements -/

/-- Cell `(row, col)` of `b` is on the board and blank. -/
def Board.emptyAt (b : Board) (row col : Int) : Prop :=
  b.getCell row col = .ok ' '

/-- Cell `(row, col)` of `b` is blank and placing `mark` there makes `checkWin mark` true. -/
def Board.winsAt (b : Board) (mark : Char) (row col : Int) : Prop :=
  b.emptyAt row col ∧ (b.placeMark row col mark).2.checkWin mark = true

/-- Row-major scan order: `(r', c')` is visited before `(r, c)`. -/
def scanBefore (r' c' r c : Int) : Prop :=
  r' < r ∨ (r' = r ∧ c' < c)

/-- The board whose rows are the three given triples. -/
def Board.ofRows (r0 r1 r2 : Char × Char × Char) : Board :=
  ⟨fun i j =>
    let row := if i = 0 then r0 else if i = 1 then r1 else r2
    if j = 0 then row.1 else if j = 1 then row.2.1 else row.2.2⟩

/-! ## Sequences of placements -/

/-- One call `placeMark(row, col, mark)`. -/
abbrev Placement : Type := Int × Int × Char

/-- The board after the calls `ops` made in order on `b`, whatever each one returned. -/
def Board.placeAll (b : Board) : List Placement → Board
  | [] => b
  | op :: rest => Board.placeAll (b.placeMark op.1 op.2.1 op.2.2).2 rest

/-- The calls among `ops`, made in order on `b`, that returned `true`. -/
def Board.accepted (b : Board) : List Placement → List Placement
  | [] => []
  | op :: rest =>
    if (b.placeMark op.1 op.2.1 op.2.2).1 then
      op :: Board.accepted (b.placeMark op.1 op.2.1 op.2.2).2 rest
    else Board.accepted (b.placeMark op.1 op.2.1 op.2.2).2 rest

/-- The mark of the last call of the list that names cell `(row, col)`, if there is one. -/
def lastMarkOn (row col : Int) : List Placement → Option Char
  | [] => none
  | op :: rest =>
    match lastMarkOn row col rest with
    | some m => some m
    | none => if op.1 = row ∧ op.2.1 = col then some op.2.2 else none

/-! ## Sequences of move requests -/

/-- The game after the move requests `reqs`, each applied to the player then active; requests
that come after the game has ended change nothing. -/
def TicTacToeGame.playAll (g : TicTacToeGame) : List (Int × Int) → TicTacToeGame
  | [] => g
  | req :: rest =>
    match g.status with
    | .awaitingMove => TicTacToeGame.playAll (g.applyMove req.1 req.2) rest
    | _ => g

/-- The requests among `reqs` that `placeMark` accepted, each with the flag "the mover was
`player1`". -/
def TicTacToeGame.acceptedMoves (g : TicTacToeGame) : List (Int × Int) → List (Bool × Int × Int)
  | [] => []
  | req :: rest =>
    match g.status with
    | .awaitingMove =>
      if (g.board.placeMark req.1 req.2 g.currentPlayer.mark).1 then
        (g.currentIsPlayer1, req.1, req.2) ::
          TicTacToeGame.acceptedMoves (g.applyMove req.1 req.2) rest
      else TicTacToeGame.acceptedMoves (g.applyMove req.1 req.2) rest
    | _ => []

/-- The list `first, !first, first, ...` of length `n`. -/
def alternate (first : Bool) : Nat → List Bool
  | 0 => []
  | n + 1 => first :: alternate (!first) n

/-- The number of blank cells of the board. -/
def Board.emptyCount (b : Board) : Nat :=
  (Finset.univ.filter (fun ij : Fin BOARD_SIZE × Fin BOARD_SIZE => b.grid ij.1 ij.2 = ' ')).card

/-! ## Lines -/

/-- The 8 lines of the board: the 3 rows, the 3 columns, the 2 diagonals. -/
def lines : List (List (Fin BOARD_SIZE × Fin BOARD_SIZE)) :=
  [[(0, 0), (0, 1), (0, 2)], [(1, 0), (1, 1), (1, 2)], [(2, 0), (2, 1), (2, 2)],
   [(0, 0), (1, 0), (2, 0)], [(0, 1), (1, 1), (2, 1)], [(0, 2), (1, 2), (2, 2)],
   [(0, 0), (1, 1), (2, 2)], [(0, 2), (1, 1), (2, 0)]]

/-- One of the 8 lines has all three of its cells equal to `mark`. -/
def Board.hasLine (b : Board) (mark : Char) : Prop :=
  ∃ l ∈ lines, ∀ rc ∈ l, b.grid rc.1 rc.2 = mark

/-! ## Boards used as concrete inputs -/

/-- Scenario B: `X` at (0,0) and (0,1), an `O` threat on row 1, the centre taken. -/
def boardB : Board :=
  Board.ofRows ('X', 'X', ' ') (' ', 'O', 'O') (' ', ' ', ' ')

/-- Scenario C: `O` at (1,0) and (1,1), every other cell blank. -/
def boardC : Board :=
  Board.ofRows (' ', ' ', ' ') ('O', 'O', ' ') (' ', ' ', ' ')

/-- A quiet position with the centre taken and the first corner taken. -/
def boardCorner : Board :=
  Board.ofRows ('O', ' ', ' ') (' ', 'X', ' ') (' ', ' ', ' ')

/-- A quiet position with the centre and the four corners taken. -/
def boardEdges : Board :=
  Board.ofRows ('X', ' ', 'O') ('O', 'X', 'X') ('X', ' ', 'O')

/-- A full board without three in a row. -/
def boardFull : Board :=
  Board.ofRows ('X', 'O', 'X') ('X', 'O', 'O') ('O', 'X', 'X')

/-- A board whose row 0 is `X`, `X`, `X`. -/
def boardRowX : Board :=
  Board.ofRows ('X', 'X', 'X') ('O', 'O', ' ') (' ', ' ', ' ')

/-- A board with one blank cell, (2,2), where `X` completes the diagonal. -/
def boardLastWins : Board :=
  Board.ofRows ('X', 'O', 'X') ('O', 'X', 'O') ('O', 'X', ' ')

/-- A board with one blank cell, (2,2), where `X` completes no line. -/
def boardLastDraws : Board :=
  Board.ofRows ('X', 'O', 'X') ('X', 'O', 'O') ('O', 'X', ' ')

/-- A game of two humans, `player1` to move, on the given board. -/
def gameOn (b : Board) : TicTacToeGame :=
  TicTacToeGame.new b ⟨"Player 1", 'X'⟩ ⟨"Player 2", 'O'⟩ false

/-! ## The probe as the spec words it -/

/-- The copy loop of `wouldWin`: `tempBoard` after `// Copy the current board state`. -/
def ComputerPlayer.copyBoard (board : Board) : Except BoardError Board :=
  loopFold (fun i t => loopFold (fun j t' =>
    match board.getCell i j with
    | .error e => .error e
    | .ok ch => .ok (t'.placeMark i j ch).2) indices t) indices Board.new

/-- The probe as a pure function of the snapshot: cell `(i, j)` is blank and `mark` has a line
on the snapshot with cell `(i, j)` set to `mark`. -/
def wouldWinPure (board : Board) (i j : Fin BOARD_SIZE) (mark : Char) : Bool :=
  decide (board.grid i j = ' ') && (board.assign i j mark).checkWin mark

/-! ## Auxiliary definitions of the proofs -/

/-- The first cell in row-major order that satisfies `P`, as a pair of `int`s. -/
def scan (P : Fin BOARD_SIZE → Fin BOARD_SIZE → Bool) : Option (Int × Int) :=
  (List.finRange BOARD_SIZE).findSome? (fun i =>
    (List.finRange BOARD_SIZE).findSome? (fun j =>
      if P i j then some ((i.val : Int), (j.val : Int)) else none))

/-- The first `k` cells in row-major order hold what `board` holds, the others are blank. -/
def CopiedUpTo (board t : Board) (k : Nat) : Prop :=
  ∀ i j : Fin BOARD_SIZE, t.grid i j = if 3 * i.val + j.val < k then board.grid i j else ' '

/-- Cell `(i, j)` is blank and writing `m` into it completes a line of `m`. -/
def winCell (b : Board) (m : Char) (i j : Fin BOARD_SIZE) : Bool :=
  decide (b.grid i j = ' ') && (b.assign i j m).checkWin m

/-- Cell `(i, j)` is blank. -/
def blankCell (b : Board) (i j : Fin BOARD_SIZE) : Bool :=
  decide (b.grid i j = ' ')

/-- The first blank corner in the order of the array `corners`. -/
def cornerPick (b : Board) : Option (Int × Int) :=
  if b.grid 0 0 = ' ' then some (0, 0)
  else if b.grid 0 2 = ' ' then some (0, 2)
  else if b.grid 2 0 = ' ' then some (2, 0)
  else if b.grid 2 2 = ' ' then some (2, 2)
  else none

/-- The priority list of `getBestMove` as one expression. -/
def bestMove (b : Board) (mark : Char) : Option (Int × Int) :=
  match scan (winCell b mark) with
  | some r => some r
  | none =>
    match scan (winCell b (if mark = 'X' then 'O' else 'X')) with
    | some r => some r
    | none =>
      if b.grid 1 1 = ' ' then some (1, 1)
      else
        match cornerPick b with
        | some r => some r
        | none => scan (blankCell b)

/-- The loop of `start` is never waiting for a move on a full board. -/
def NotFullWhileAwaiting (g : TicTacToeGame) : Prop :=
  g.status = .awaitingMove → g.board.isFull = false

/-- Neither `X` nor `O` has a complete line. -/
def Board.noLine (b : Board) : Prop :=
  b.checkWin 'X' = false ∧ b.checkWin 'O' = false

/-- The players hold the marks `X` and `O`; while a move is awaited, and after a draw, no mark
has a line; after a win the winner's mark has a line and the other mark has none. -/
def LinesInvariant (g : TicTacToeGame) : Prop :=
  (g.player1.mark = 'X' ∧ g.player2.mark = 'O') ∧
  (g.status = .awaitingMove → g.board.noLine) ∧
  (g.status = .draw → g.board.noLine) ∧
  (∀ w, g.status = .won w →
    (w.mark = 'X' ∧ g.board.checkWin 'X' = true ∧ g.board.checkWin 'O' = false) ∨
    (w.mark = 'O' ∧ g.board.checkWin 'O' = true ∧ g.board.checkWin 'X' = false))

/-! ## Basic facts -/

theorem finRange_eq : List.finRange BOARD_SIZE = [0, 1, 2] := rfl

theorem indices_eq : indices = [0, 1, 2] := rfl

theorem outside_iff (row col : Int) :
    outside row col ↔ (row < 0 ∨ 3 ≤ row ∨ col < 0 ∨ 3 ≤ col) := by
  unfold outside; simp only [BOARD_SIZE]; omega

theorem not_outside_coe (i j : Fin BOARD_SIZE) : ¬ outside (i.val : Int) (j.val : Int) := by
  rw [outside_iff]
  have hi : i.val < 3 := i.isLt
  have hj : j.val < 3 := j.isLt
  omega

theorem rowIndex_coe (i j : Fin BOARD_SIZE) (h : ¬ outside (i.val : Int) (j.val : Int)) :
    rowIndex h = i := by
  apply Fin.ext; simp [rowIndex]

theorem colIndex_coe (i j : Fin BOARD_SIZE) (h : ¬ outside (i.val : Int) (j.val : Int)) :
    colIndex h = j := by
  apply Fin.ext; simp [colIndex]

theorem exists_fin_of_inside {row col : Int} (h : ¬ outside row col) :
    ∃ i j : Fin BOARD_SIZE, row = (i.val : Int) ∧ col = (j.val : Int) := by
  rw [outside_iff] at h
  refine ⟨⟨row.toNat, by simp only [BOARD_SIZE]; omega⟩,
    ⟨col.toNat, by simp only [BOARD_SIZE]; omega⟩, ?_, ?_⟩ <;> simp <;> omega

theorem getCell_coe (b : Board) (i j : Fin BOARD_SIZE) :
    b.getCell (i.val : Int) (j.val : Int) = .ok (b.grid i j) := by
  unfold Board.getCell
  rw [dif_neg (not_outside_coe i j), rowIndex_coe, colIndex_coe]

theorem getCell_outside (b : Board) {row col : Int} (h : outside row col) :
    b.getCell row col = .error .outOfRange := by
  unfold Board.getCell; rw [dif_pos h]

theorem placeMark_coe (b : Board) (i j : Fin BOARD_SIZE) (mark : Char) :
    b.placeMark (i.val : Int) (j.val : Int) mark =
      if b.grid i j ≠ ' ' then (false, b) else (true, b.assign i j mark) := by
  unfold Board.placeMark
  rw [dif_neg (not_outside_coe i j), rowIndex_coe, colIndex_coe]

theorem placeMark_outside (b : Board) {row col : Int} (h : outside row col) (mark : Char) :
    b.placeMark row col mark = (false, b) := by
  unfold Board.placeMark; rw [dif_pos h]

theorem coe_inj_fin {i i' : Fin BOARD_SIZE} : ((i.val : Int) = (i'.val : Int)) ↔ i = i' := by
  constructor
  · intro h; apply Fin.ext; exact_mod_cast h
  · intro h; rw [h]

theorem emptyAt_coe (b : Board) (i j : Fin BOARD_SIZE) :
    b.emptyAt (i.val : Int) (j.val : Int) ↔ b.grid i j = ' ' := by
  unfold Board.emptyAt; rw [getCell_coe]
  constructor
  · intro h; injection h
  · intro h; rw [h]

theorem emptyAt_inside {b : Board} {row col : Int} (h : b.emptyAt row col) :
    ¬ outside row col := by
  intro ho
  unfold Board.emptyAt at h
  rw [getCell_outside b ho] at h
  cases h

/-! ## Loops over the three indices -/

theorem indices_eq_map : indices = (List.finRange BOARD_SIZE).map (fun i => (i.val : Int)) := rfl

theorem loopFold_coe {σ : Type} (g : Fin BOARD_SIZE → σ → σ)
    (body : Int → σ → Except BoardError σ)
    (h : ∀ i s, body (i.val : Int) s = .ok (g i s)) (l : List (Fin BOARD_SIZE)) (s : σ) :
    loopFold body (l.map (fun i => (i.val : Int))) s = .ok (l.foldl (fun t i => g i t) s) := by
  induction l generalizing s with
  | nil => rfl
  | cons i rest ih => simp only [List.map, loopFold, h, List.foldl, ih]

theorem loopFind_coe {α : Type} (f : Fin BOARD_SIZE → Option α)
    (body : Int → Except BoardError (Option α))
    (h : ∀ i, body (i.val : Int) = .ok (f i)) (l : List (Fin BOARD_SIZE)) :
    loopFind body (l.map (fun i => (i.val : Int))) = .ok (l.findSome? f) := by
  induction l with
  | nil => rfl
  | cons i rest ih =>
    simp only [List.map, loopFind, h, List.findSome?]
    cases f i with
    | none => simpa using ih
    | some a => rfl

theorem fin_three (i : Fin BOARD_SIZE) : i = 0 ∨ i = 1 ∨ i = 2 := by
  revert i; decide

theorem findSome_fin_some {α : Type} (f : Fin BOARD_SIZE → Option α) (x : α) :
    (List.finRange BOARD_SIZE).findSome? f = some x ↔
      ∃ i, f i = some x ∧ ∀ i', i' < i → f i' = none := by
  have lt10 : (0 : Fin BOARD_SIZE) < 1 := by decide
  have lt20 : (0 : Fin BOARD_SIZE) < 2 := by decide
  have lt21 : (1 : Fin BOARD_SIZE) < 2 := by decide
  rw [finRange_eq]
  simp only [List.findSome?]
  rcases h0 : f 0 with _ | a0
  · rcases h1 : f 1 with _ | a1
    · rcases h2 : f 2 with _ | a2
      · constructor
        · intro h; cases h
        · rintro ⟨i, hi, -⟩
          rcases fin_three i with rfl | rfl | rfl <;> simp_all
      · constructor
        · intro h
          refine ⟨2, by rw [h2]; exact h, ?_⟩
          intro i' hi'
          rcases fin_three i' with rfl | rfl | rfl <;> simp_all
        · rintro ⟨i, hi, -⟩
          rcases fin_three i with rfl | rfl | rfl <;> simp_all
    · constructor
      · intro h
        refine ⟨1, by rw [h1]; exact h, ?_⟩
        intro i' hi'
        rcases fin_three i' with rfl | rfl | rfl <;> simp_all
      · rintro ⟨i, hi, hlt⟩
        rcases fin_three i with rfl | rfl | rfl
        · simp_all
        · simp_all
        · have := hlt 1 lt21
          simp_all
  · constructor
    · intro h
      refine ⟨0, by rw [h0]; exact h, ?_⟩
      intro i' hi'
      rcases fin_three i' with rfl | rfl | rfl <;> simp_all
    · rintro ⟨i, hi, hlt⟩
      rcases fin_three i with rfl | rfl | rfl
      · simp_all
      · have := hlt 0 lt10
        simp_all
      · have := hlt 0 lt20
        simp_all

theorem findSome_fin_none {α : Type} (f : Fin BOARD_SIZE → Option α) :
    (List.finRange BOARD_SIZE).findSome? f = none ↔ ∀ i, f i = none := by
  rw [finRange_eq]
  simp only [List.findSome?_eq_none_iff, List.mem_cons, List.mem_singleton, List.not_mem_nil,
    or_false]
  constructor
  · intro h i
    exact h i (fin_three i)
  · intro h i _
    exact h i

theorem scan_eq_none (P : Fin BOARD_SIZE → Fin BOARD_SIZE → Bool) :
    scan P = none ↔ ∀ i j, P i j = false := by
  unfold scan
  rw [findSome_fin_none]
  constructor
  · intro h i j
    have hj := (findSome_fin_none _).1 (h i) j
    cases hP : P i j with
    | false => rfl
    | true => rw [hP] at hj; simp at hj
  · intro h i
    rw [findSome_fin_none]
    intro j
    simp [h i j]

theorem scan_eq_some (P : Fin BOARD_SIZE → Fin BOARD_SIZE → Bool) (r c : Int) :
    scan P = some (r, c) ↔
      ∃ i j : Fin BOARD_SIZE, r = (i.val : Int) ∧ c = (j.val : Int) ∧ P i j = true ∧
        ∀ i' j' : Fin BOARD_SIZE, (i' < i ∨ (i' = i ∧ j' < j)) → P i' j' = false := by
  unfold scan
  rw [findSome_fin_some]
  constructor
  · rintro ⟨i, hi, hlt⟩
    rw [findSome_fin_some] at hi
    obtain ⟨j, hj, hjlt⟩ := hi
    have hP : P i j = true := by
      cases hP : P i j with
      | true => rfl
      | false => rw [hP] at hj; simp at hj
    rw [hP] at hj
    simp only [if_true, Option.some.injEq, Prod.mk.injEq] at hj
    refine ⟨i, j, hj.1.symm, hj.2.symm, hP, ?_⟩
    rintro i' j' (h | ⟨rfl, h⟩)
    · have := (findSome_fin_none _).1 (hlt i' h) j'
      cases hP' : P i' j' with
      | false => rfl
      | true => rw [hP'] at this; simp at this
    · have := hjlt j' h
      cases hP' : P i' j' with
      | false => rfl
      | true => rw [hP'] at this; simp at this
  · rintro ⟨i, j, rfl, rfl, hP, hlt⟩
    refine ⟨i, ?_, ?_⟩
    · rw [findSome_fin_some]
      refine ⟨j, by simp [hP], ?_⟩
      intro j' hj'
      simp [hlt i j' (Or.inr ⟨rfl, hj'⟩)]
    · intro i' hi'
      rw [findSome_fin_none]
      intro j'
      simp [hlt i' j' (Or.inl hi')]

/-! ## The probe `wouldWin` -/

theorem placeMark_grid (t : Board) (i j i' j' : Fin BOARD_SIZE) (ch : Char) :
    (t.placeMark (i.val : Int) (j.val : Int) ch).2.grid i' j' =
      if (i' = i ∧ j' = j) ∧ t.grid i j = ' ' then ch else t.grid i' j' := by
  rw [placeMark_coe]
  by_cases h : t.grid i j = ' '
  · simp [h, Board.assign]
  · simp [h]

theorem copiedUpTo_step (board t : Board) (i j : Fin BOARD_SIZE) (k : Nat)
    (hk : k = 3 * i.val + j.val) (h : CopiedUpTo board t k) :
    CopiedUpTo board (t.placeMark (i.val : Int) (j.val : Int) (board.grid i j)).2 (k + 1) := by
  intro i' j'
  have hij : t.grid i j = ' ' := by rw [h i j, if_neg (by omega)]
  rw [placeMark_grid, h i' j']
  have hi : i.val < 3 := i.isLt
  have hj : j.val < 3 := j.isLt
  have hi' : i'.val < 3 := i'.isLt
  have hj' : j'.val < 3 := j'.isLt
  by_cases he : i' = i ∧ j' = j
  · obtain ⟨rfl, rfl⟩ := he
    simp [hij, hk]
  · have hne : 3 * i'.val + j'.val ≠ k := by
      intro hh
      apply he
      constructor <;> apply Fin.ext <;> omega
    by_cases hlt : 3 * i'.val + j'.val < k
    · rw [if_neg (fun hh => he hh.1), if_pos hlt, if_pos (by omega)]
    · rw [if_neg (fun hh => he hh.1), if_neg hlt, if_neg (by omega)]

theorem copy_loop (board : Board) :
    loopFold (fun i t => loopFold (fun j t' =>
      match board.getCell i j with
      | .error e => .error e
      | .ok ch => .ok (t'.placeMark i j ch).2) indices t) indices Board.new = .ok board := by
  rw [indices_eq_map]
  rw [loopFold_coe (fun i t => (List.finRange BOARD_SIZE).foldl
    (fun t' j => (t'.placeMark (i.val : Int) (j.val : Int) (board.grid i j)).2) t)]
  · rw [finRange_eq]
    simp only [List.foldl]
    have h0 : CopiedUpTo board Board.new 0 := fun _ _ => by simp [Board.new]
    have h9 := copiedUpTo_step board _ 2 2 8 rfl (copiedUpTo_step board _ 2 1 7 rfl
      (copiedUpTo_step board _ 2 0 6 rfl (copiedUpTo_step board _ 1 2 5 rfl
      (copiedUpTo_step board _ 1 1 4 rfl (copiedUpTo_step board _ 1 0 3 rfl
      (copiedUpTo_step board _ 0 2 2 rfl (copiedUpTo_step board _ 0 1 1 rfl
      (copiedUpTo_step board _ 0 0 0 rfl h0))))))))
    generalize (((((((((Board.new.placeMark _ _ _).2.placeMark _ _ _).2.placeMark _ _ _).2.placeMark
      _ _ _).2.placeMark _ _ _).2.placeMark _ _ _).2.placeMark _ _ _).2.placeMark
      _ _ _).2.placeMark _ _ _).2 = t at h9 ⊢
    congr 1
    cases t with
    | mk g =>
      cases board with
      | mk g' =>
        congr 1
        funext i j
        have := h9 i j
        have hi : i.val < 3 := i.isLt
        have hj : j.val < 3 := j.isLt
        rw [if_pos (by omega)] at this
        exact this
  · intro i s
    rw [loopFold_coe (fun j t' => (t'.placeMark (i.val : Int) (j.val : Int) (board.grid i j)).2)]
    intro j t'
    simp only [getCell_coe]

theorem wouldWin_eq (p : ComputerPlayer) (board : Board) (row col : Int) (m : Char) :
    p.wouldWin board row col m =
      .ok ((board.placeMark row col m).1 && (board.placeMark row col m).2.checkWin m) := by
  unfold ComputerPlayer.wouldWin
  rw [copy_loop]
  cases h : (board.placeMark row col m).1 <;> simp [h]

/-! ## Normal form of `getBestMove` -/

theorem probe_coe (p : ComputerPlayer) (b : Board) (m : Char) (i j : Fin BOARD_SIZE) :
    p.probe b m (i.val : Int) (j.val : Int) =
      .ok (if winCell b m i j then some ((i.val : Int), (j.val : Int)) else none) := by
  unfold ComputerPlayer.probe winCell
  rw [getCell_coe, wouldWin_eq, placeMark_coe]
  by_cases h : b.grid i j = ' '
  · cases hw : (b.assign i j m).checkWin m <;> simp [h, hw]
  · simp [h]

theorem takeIfEmpty_coe (b : Board) (i j : Fin BOARD_SIZE) :
    ComputerPlayer.takeIfEmpty b (i.val : Int) (j.val : Int) =
      .ok (if blankCell b i j then some ((i.val : Int), (j.val : Int)) else none) := by
  unfold ComputerPlayer.takeIfEmpty blankCell
  rw [getCell_coe]
  by_cases h : b.grid i j = ' ' <;> simp [h]

theorem probeLoop_eq (p : ComputerPlayer) (b : Board) (m : Char) :
    loopFind (fun i => loopFind (fun j => p.probe b m i j) indices) indices =
      .ok (scan (winCell b m)) := by
  rw [indices_eq_map]
  unfold scan
  apply loopFind_coe
  intro i
  apply loopFind_coe
  intro j
  exact probe_coe p b m i j

theorem anyLoop_eq (b : Board) :
    loopFind (fun i => loopFind (fun j => ComputerPlayer.takeIfEmpty b i j) indices) indices =
      .ok (scan (blankCell b)) := by
  rw [indices_eq_map]
  unfold scan
  apply loopFind_coe
  intro i
  apply loopFind_coe
  intro j
  exact takeIfEmpty_coe b i j

theorem cornerLoop_eq (b : Board) :
    ComputerPlayer.cornerLoop b corners = .ok (cornerPick b) := by
  have h00 := takeIfEmpty_coe b 0 0
  have h02 := takeIfEmpty_coe b 0 2
  have h20 := takeIfEmpty_coe b 2 0
  have h22 := takeIfEmpty_coe b 2 2
  simp only [blankCell, Fin.val_zero, Fin.val_two, Nat.cast_zero, Nat.cast_ofNat,
    decide_eq_true_eq] at h00 h02 h20 h22
  unfold corners cornerPick
  simp only [ComputerPlayer.cornerLoop, h00, h02, h20, h22]
  by_cases c00 : b.grid 0 0 = ' '
  · simp [c00]
  · by_cases c02 : b.grid 0 2 = ' '
    · simp [c00, c02]
    · by_cases c20 : b.grid 2 0 = ' '
      · simp [c00, c02, c20]
      · by_cases c22 : b.grid 2 2 = ' ' <;> simp [c00, c02, c20, c22]

theorem getCell_center (b : Board) : b.getCell 1 1 = .ok (b.grid 1 1) :=
  getCell_coe b 1 1

theorem getBestMove_eq (p : ComputerPlayer) (b : Board) :
    p.getBestMove b = .ok (bestMove b p.mark) := by
  unfold ComputerPlayer.getBestMove bestMove
  simp only [probeLoop_eq, anyLoop_eq, cornerLoop_eq, getCell_center]
  cases scan (winCell b p.mark) with
  | some r => rfl
  | none =>
    cases scan (winCell b (if p.mark = 'X' then 'O' else 'X')) with
    | some r => rfl
    | none =>
      by_cases hc : b.grid 1 1 = ' '
      · simp [hc]
      · cases hk : cornerPick b <;> simp [hc]

/-! ## From array indices to `int` coordinates -/

theorem scanBefore_coe (i' j' i j : Fin BOARD_SIZE) :
    scanBefore (i'.val : Int) (j'.val : Int) (i.val : Int) (j.val : Int) ↔
      (i' < i ∨ (i' = i ∧ j' < j)) := by
  unfold scanBefore
  rw [coe_inj_fin, Fin.lt_def, Fin.lt_def]
  omega

theorem winsAt_coe (b : Board) (m : Char) (i j : Fin BOARD_SIZE) :
    b.winsAt m (i.val : Int) (j.val : Int) ↔ winCell b m i j = true := by
  unfold Board.winsAt winCell
  rw [emptyAt_coe, placeMark_coe]
  by_cases h : b.grid i j = ' ' <;> simp [h]

theorem blankCell_coe (b : Board) (i j : Fin BOARD_SIZE) :
    b.emptyAt (i.val : Int) (j.val : Int) ↔ blankCell b i j = true := by
  unfold blankCell
  rw [emptyAt_coe]
  simp

theorem winsAt_inside {b : Board} {m : Char} {row col : Int} (h : b.winsAt m row col) :
    ¬ outside row col :=
  emptyAt_inside h.1

/-- What a row-major scan for a property `Q` of in-range cells returns. -/
theorem scan_first (P : Fin BOARD_SIZE → Fin BOARD_SIZE → Bool) (Q : Int → Int → Prop)
    (hQ : ∀ i j : Fin BOARD_SIZE, Q (i.val : Int) (j.val : Int) ↔ P i j = true)
    (hin : ∀ r c, Q r c → ¬ outside r c) :
    ((∃ r c, Q r c) →
      ∃ r c, scan P = some (r, c) ∧ Q r c ∧ ∀ r' c', scanBefore r' c' r c → ¬ Q r' c') ∧
    ((¬ ∃ r c, Q r c) → scan P = none) := by
  constructor
  · rintro ⟨r0, c0, h0⟩
    obtain ⟨i0, j0, rfl, rfl⟩ := exists_fin_of_inside (hin _ _ h0)
    cases hs : scan P with
    | none =>
      have := (scan_eq_none P).1 hs i0 j0
      rw [(hQ i0 j0).1 h0] at this
      cases this
    | some rc =>
      obtain ⟨r, c⟩ := rc
      obtain ⟨i, j, rfl, rfl, hP, hlt⟩ := (scan_eq_some P r c).1 hs
      refine ⟨_, _, rfl, (hQ i j).2 hP, ?_⟩
      intro r' c' hbefore hq
      obtain ⟨i', j', rfl, rfl⟩ := exists_fin_of_inside (hin _ _ hq)
      have := hlt i' j' ((scanBefore_coe i' j' i j).1 hbefore)
      rw [(hQ i' j').1 hq] at this
      cases this
  · intro hno
    rw [scan_eq_none]
    intro i j
    cases hP : P i j with
    | false => rfl
    | true => exact absurd ⟨_, _, (hQ i j).2 hP⟩ hno

theorem scan_winCell (b : Board) (m : Char) :
    ((∃ r c, b.winsAt m r c) →
      ∃ r c, scan (winCell b m) = some (r, c) ∧ b.winsAt m r c ∧
        ∀ r' c', scanBefore r' c' r c → ¬ b.winsAt m r' c') ∧
    ((¬ ∃ r c, b.winsAt m r c) → scan (winCell b m) = none) :=
  scan_first (winCell b m) (b.winsAt m) (winsAt_coe b m) (fun _ _ h => winsAt_inside h)

theorem scan_blankCell (b : Board) :
    ((∃ r c, b.emptyAt r c) →
      ∃ r c, scan (blankCell b) = some (r, c) ∧ b.emptyAt r c ∧
        ∀ r' c', scanBefore r' c' r c → ¬ b.emptyAt r' c') ∧
    ((¬ ∃ r c, b.emptyAt r c) → scan (blankCell b) = none) :=
  scan_first (blankCell b) b.emptyAt (blankCell_coe b) (fun _ _ h => emptyAt_inside h)

theorem emptyAt_lit (b : Board) (i j : Fin BOARD_SIZE) (r c : Int)
    (hr : r = (i.val : Int)) (hc : c = (j.val : Int)) :
    b.emptyAt r c ↔ b.grid i j = ' ' := by
  subst hr; subst hc; exact emptyAt_coe b i j

/-- The heuristic with rule 1 (win now) firing. -/
theorem bestMove_win (b : Board) (m : Char) (h : ∃ r c, b.winsAt m r c) :
    ∃ r c, bestMove b m = some (r, c) ∧ b.winsAt m r c ∧
      ∀ r' c', scanBefore r' c' r c → ¬ b.winsAt m r' c' := by
  obtain ⟨r, c, hs, hw, hmin⟩ := (scan_winCell b m).1 h
  refine ⟨r, c, ?_, hw, hmin⟩
  unfold bestMove
  rw [hs]

/-- The heuristic with rule 1 out and rule 2 (block) firing. -/
theorem bestMove_block (b : Board) (m : Char) (hno : ¬ ∃ r c, b.winsAt m r c)
    (h : ∃ r c, b.winsAt (if m = 'X' then 'O' else 'X') r c) :
    ∃ r c, bestMove b m = some (r, c) ∧ b.winsAt (if m = 'X' then 'O' else 'X') r c ∧
      ∀ r' c', scanBefore r' c' r c → ¬ b.winsAt (if m = 'X' then 'O' else 'X') r' c' := by
  obtain ⟨r, c, hs, hw, hmin⟩ := (scan_winCell b _).1 h
  refine ⟨r, c, ?_, hw, hmin⟩
  unfold bestMove
  rw [(scan_winCell b m).2 hno, hs]

/-- The heuristic with rules 1 and 2 out. -/
theorem bestMove_quiet (b : Board) (m : Char) (hno : ¬ ∃ r c, b.winsAt m r c)
    (hno' : ¬ ∃ r c, b.winsAt (if m = 'X' then 'O' else 'X') r c) :
    bestMove b m =
      if b.grid 1 1 = ' ' then some (1, 1)
      else
        match cornerPick b with
        | some r => some r
        | none => scan (blankCell b) := by
  unfold bestMove
  rw [(scan_winCell b m).2 hno, (scan_winCell b _).2 hno']

theorem getCell_lit (b : Board) (i j : Fin BOARD_SIZE) (r c : Int)
    (hr : r = (i.val : Int)) (hc : c = (j.val : Int)) :
    b.getCell r c = .ok (b.grid i j) := by
  subst hr; subst hc; exact getCell_coe b i j

theorem winsAt_lit (b : Board) (m : Char) (i j : Fin BOARD_SIZE) (r c : Int)
    (hr : r = (i.val : Int)) (hc : c = (j.val : Int)) :
    b.winsAt m r c ↔ (b.grid i j = ' ' ∧ (b.assign i j m).checkWin m = true) := by
  subst hr; subst hc
  rw [winsAt_coe]
  simp [winCell]

theorem isFull_iff_grid (b : Board) :
    b.isFull = true ↔ ∀ i j : Fin BOARD_SIZE, b.grid i j ≠ ' ' := by
  unfold Board.isFull
  rw [finRange_eq]
  constructor
  · intro h i j hij
    rcases fin_three i with rfl | rfl | rfl <;> rcases fin_three j with rfl | rfl | rfl <;>
      simp [hij] at h
  · intro h
    simp [h]

theorem isFull_iff_emptyAt (b : Board) :
    b.isFull = true ↔ ¬ ∃ r c, b.emptyAt r c := by
  rw [isFull_iff_grid]
  constructor
  · rintro h ⟨r, c, he⟩
    obtain ⟨i, j, rfl, rfl⟩ := exists_fin_of_inside (emptyAt_inside he)
    exact h i j ((emptyAt_coe b i j).1 he)
  · intro h i j hij
    exact h ⟨_, _, (emptyAt_coe b i j).2 hij⟩

theorem scan_some_inside (P : Fin BOARD_SIZE → Fin BOARD_SIZE → Bool) (Q : Int → Int → Prop)
    (hQ : ∀ i j : Fin BOARD_SIZE, P i j = true → Q (i.val : Int) (j.val : Int))
    {r c : Int} (h : scan P = some (r, c)) : Q r c := by
  obtain ⟨i, j, rfl, rfl, hP, -⟩ := (scan_eq_some P r c).1 h
  exact hQ i j hP

theorem winCell_blank (b : Board) (m : Char) (i j : Fin BOARD_SIZE)
    (h : winCell b m i j = true) : b.emptyAt (i.val : Int) (j.val : Int) :=
  ((winsAt_coe b m i j).2 h).1

theorem cornerPick_some (b : Board) {r c : Int} (h : cornerPick b = some (r, c)) :
    b.emptyAt r c := by
  unfold cornerPick at h
  by_cases c00 : b.grid 0 0 = ' '
  · rw [if_pos c00] at h
    obtain ⟨rfl, rfl⟩ := Prod.mk.inj (Option.some.inj h)
    exact (emptyAt_lit b 0 0 0 0 rfl rfl).2 c00
  · rw [if_neg c00] at h
    by_cases c02 : b.grid 0 2 = ' '
    · rw [if_pos c02] at h
      obtain ⟨rfl, rfl⟩ := Prod.mk.inj (Option.some.inj h)
      exact (emptyAt_lit b 0 2 0 2 rfl rfl).2 c02
    · rw [if_neg c02] at h
      by_cases c20 : b.grid 2 0 = ' '
      · rw [if_pos c20] at h
        obtain ⟨rfl, rfl⟩ := Prod.mk.inj (Option.some.inj h)
        exact (emptyAt_lit b 2 0 2 0 rfl rfl).2 c20
      · rw [if_neg c20] at h
        by_cases c22 : b.grid 2 2 = ' '
        · rw [if_pos c22] at h
          obtain ⟨rfl, rfl⟩ := Prod.mk.inj (Option.some.inj h)
          exact (emptyAt_lit b 2 2 2 2 rfl rfl).2 c22
        · rw [if_neg c22] at h
          cases h

/-- Every cell the heuristic returns is blank. -/
theorem bestMove_some_empty (b : Board) (m : Char) {r c : Int}
    (h : bestMove b m = some (r, c)) : b.emptyAt r c := by
  unfold bestMove at h
  cases h1 : scan (winCell b m) with
  | some rc =>
    rw [h1] at h
    obtain rfl := Option.some.inj h
    exact scan_some_inside _ b.emptyAt (winCell_blank b m) h1
  | none =>
    rw [h1] at h
    cases h2 : scan (winCell b (if m = 'X' then 'O' else 'X')) with
    | some rc =>
      rw [h2] at h
      obtain rfl := Option.some.inj h
      exact scan_some_inside _ b.emptyAt (winCell_blank b _) h2
    | none =>
      rw [h2] at h
      by_cases hc : b.grid 1 1 = ' '
      · simp only [if_pos hc] at h
        obtain ⟨rfl, rfl⟩ := Prod.mk.inj (Option.some.inj h)
        exact (emptyAt_lit b 1 1 1 1 rfl rfl).2 hc
      · simp only [if_neg hc] at h
        cases h3 : cornerPick b with
        | some rc =>
          rw [h3] at h
          obtain rfl := Option.some.inj h
          exact cornerPick_some b h3
        | none =>
          rw [h3] at h
          exact scan_some_inside _ b.emptyAt (fun i j hP => (blankCell_coe b i j).2 hP) h

/-- The heuristic returns no cell exactly when no cell is blank. -/
theorem bestMove_none_iff (b : Board) (m : Char) :
    bestMove b m = none ↔ ¬ ∃ r c, b.emptyAt r c := by
  constructor
  · intro h hex
    obtain ⟨r, c, hs, -, -⟩ := (scan_blankCell b).1 hex
    unfold bestMove at h
    cases h1 : scan (winCell b m) with
    | some rc => rw [h1] at h; cases h
    | none =>
      rw [h1] at h
      cases h2 : scan (winCell b (if m = 'X' then 'O' else 'X')) with
      | some rc => rw [h2] at h; cases h
      | none =>
        rw [h2] at h
        by_cases hc : b.grid 1 1 = ' '
        · simp only [if_pos hc] at h; cases h
        · simp only [if_neg hc] at h
          cases h3 : cornerPick b with
          | some rc => rw [h3] at h; cases h
          | none =>
            rw [h3, hs] at h
            cases h
  · intro hno
    cases h : bestMove b m with
    | none => rfl
    | some rc => exact absurd ⟨rc.1, rc.2, bestMove_some_empty b m h⟩ hno

/-- A successful `placeMark` is one on an in-range blank cell. -/
theorem placeMark_true_iff (b : Board) (row col : Int) (mark : Char) :
    (b.placeMark row col mark).1 = true ↔ b.emptyAt row col := by
  by_cases ho : outside row col
  · rw [placeMark_outside b ho]
    constructor
    · intro h; cases h
    · intro h; exact absurd ho (emptyAt_inside h)
  · obtain ⟨i, j, rfl, rfl⟩ := exists_fin_of_inside ho
    rw [placeMark_coe, emptyAt_coe]
    by_cases h : b.grid i j = ' ' <;> simp [h]

theorem opponent_eq {m opp : Char} (h : (m = 'X' ∧ opp = 'O') ∨ (m = 'O' ∧ opp = 'X')) :
    (if m = 'X' then 'O' else 'X') = opp := by
  rcases h with ⟨rfl, rfl⟩ | ⟨rfl, rfl⟩
  · rfl
  · rw [if_neg (by decide)]

theorem no_winsAt_of_scan {b : Board} {m : Char} (h : scan (winCell b m) = none) :
    ¬ ∃ r c, b.winsAt m r c := by
  intro hex
  obtain ⟨r, c, hs, -, -⟩ := (scan_winCell b m).1 hex
  rw [h] at hs
  cases hs

theorem cornerPick_none (b : Board) (h00 : b.grid 0 0 ≠ ' ') (h02 : b.grid 0 2 ≠ ' ')
    (h20 : b.grid 2 0 ≠ ' ') (h22 : b.grid 2 2 ≠ ' ') : cornerPick b = none := by
  unfold cornerPick
  rw [if_neg h00, if_neg h02, if_neg h20, if_neg h22]

theorem checkWin_iff_hasLine (b : Board) (mark : Char) :
    b.checkWin mark = true ↔ b.hasLine mark := by
  unfold Board.checkWin Board.hasLine
  rw [finRange_eq]
  simp only [lines, List.any_cons, List.any_nil, Bool.or_false, Bool.or_eq_true,
    Bool.and_eq_true, beq_iff_eq, List.mem_cons, List.mem_singleton, List.not_mem_nil,
    or_false, exists_eq_or_imp, forall_eq_or_imp, exists_eq_left, forall_eq, and_assoc]
  have key : ∀ r0 r1 r2 c0 c1 c2 d a : Prop,
      (((r0 ∨ c0) ∨ (r1 ∨ c1) ∨ r2 ∨ c2) ∨ (d ∨ a)) ↔
        (r0 ∨ r1 ∨ r2 ∨ c0 ∨ c1 ∨ c2 ∨ d ∨ a) := by
    intro r0 r1 r2 c0 c1 c2 d a
    tauto
  rw [← key]
  split_ifs with h1 h2
  · exact ⟨fun _ => Or.inl h1, fun _ => rfl⟩
  · exact ⟨fun _ => Or.inr h2, fun _ => rfl⟩
  · constructor
    · intro h; cases h
    · rintro (h | h)
      · exact absurd h h1
      · exact absurd h h2

/-! ## Facts about `placeMark` sequences -/

theorem placeMark_false (b : Board) (row col : Int) (mark : Char)
    (h : (b.placeMark row col mark).1 = false) : (b.placeMark row col mark).2 = b := by
  unfold Board.placeMark at h ⊢
  by_cases ho : outside row col
  · rw [dif_pos ho]
  · rw [dif_neg ho] at h ⊢
    by_cases hc : b.grid (rowIndex ho) (colIndex ho) ≠ ' '
    · rw [if_pos hc]
    · rw [if_neg hc] at h
      cases h

theorem placeMark_true_grid (b : Board) (row col : Int) (mark : Char)
    (h : (b.placeMark row col mark).1 = true) (i j : Fin BOARD_SIZE) :
    (b.placeMark row col mark).2.grid i j =
      if row = (i.val : Int) ∧ col = (j.val : Int) then mark else b.grid i j := by
  have he := (placeMark_true_iff b row col mark).1 h
  obtain ⟨i0, j0, rfl, rfl⟩ := exists_fin_of_inside (emptyAt_inside he)
  rw [placeMark_grid]
  simp only [coe_inj_fin]
  rw [emptyAt_coe] at he
  by_cases hij : i = i0 ∧ j = j0
  · obtain ⟨rfl, rfl⟩ := hij
    simp [he]
  · have hij' : ¬ (i0 = i ∧ j0 = j) := fun hh => hij ⟨hh.1.symm, hh.2.symm⟩
    rw [if_neg (fun hh => hij hh.1), if_neg hij']

theorem lastMarkOn_cons (row col : Int) (op : Placement) (rest : List Placement) :
    lastMarkOn row col (op :: rest) =
      match lastMarkOn row col rest with
      | some m => some m
      | none => if op.1 = row ∧ op.2.1 = col then some op.2.2 else none := rfl

theorem placeAll_grid (b : Board) (ops : List Placement) (i j : Fin BOARD_SIZE) :
    (b.placeAll ops).grid i j =
      match lastMarkOn (i.val : Int) (j.val : Int) (b.accepted ops) with
      | some m => m
      | none => b.grid i j := by
  induction ops generalizing b with
  | nil => rfl
  | cons op rest ih =>
    unfold Board.placeAll Board.accepted
    rw [ih]
    cases hok : (b.placeMark op.1 op.2.1 op.2.2).1 with
    | false =>
      simp only [Bool.false_eq_true, if_false]
      rw [placeMark_false b _ _ _ hok]
    | true =>
      simp only [if_true]
      rw [lastMarkOn_cons]
      cases lastMarkOn (i.val : Int) (j.val : Int)
          ((b.placeMark op.1 op.2.1 op.2.2).2.accepted rest) with
      | some m => rfl
      | none =>
        simp only
        rw [placeMark_true_grid b _ _ _ hok]
        by_cases hc : op.1 = (i.val : Int) ∧ op.2.1 = (j.val : Int)
        · rw [if_pos hc, if_pos hc]
        · rw [if_neg hc, if_neg hc]

/-! ## The heuristic: claims C1 to C5 -/

/-- C1 (win now). If some blank cell completes a line of the own mark, `getBestMove`
returns such a cell and no cell before it in row-major order is one. In particular, on every
board with `X` at (0,0) and (0,1) and (0,2) blank, `getBestMove` for mark `X` returns (0,2). -/
theorem getBestMove_win_now (p : ComputerPlayer) (b : Board) :
    ((∃ r c, b.winsAt p.mark r c) →
      ∃ r c, p.getBestMove b = .ok (some (r, c)) ∧ b.winsAt p.mark r c ∧
        ∀ r' c', scanBefore r' c' r c → ¬ b.winsAt p.mark r' c') ∧
    (p.mark = 'X' → b.getCell 0 0 = .ok 'X' → b.getCell 0 1 = .ok 'X' →
      b.getCell 0 2 = .ok ' ' → p.getBestMove b = .ok (some (0, 2))) := by
  constructor
  · intro h
    obtain ⟨r, c, hb, hw, hmin⟩ := bestMove_win b p.mark h
    exact ⟨r, c, by rw [getBestMove_eq, hb], hw, hmin⟩
  · intro hm h00 h01 h02
    rw [getCell_lit b 0 0 0 0 rfl rfl] at h00
    rw [getCell_lit b 0 1 0 1 rfl rfl] at h01
    rw [getCell_lit b 0 2 0 2 rfl rfl] at h02
    have g00 : b.grid 0 0 = 'X' := by injection h00
    have g01 : b.grid 0 1 = 'X' := by injection h01
    have g02 : b.grid 0 2 = ' ' := by injection h02
    have hwin : b.winsAt 'X' 0 2 := by
      rw [winsAt_lit b 'X' 0 2 0 2 rfl rfl]
      refine ⟨g02, ?_⟩
      unfold Board.checkWin
      rw [finRange_eq]
      simp [Board.assign, g00, g01]
    obtain ⟨r, c, hb, hw, hmin⟩ := bestMove_win b 'X' ⟨0, 2, hwin⟩
    rw [getBestMove_eq, hm, hb]
    have hnb : ¬ scanBefore 0 2 r c := fun hlt => hmin 0 2 hlt hwin
    obtain ⟨i, j, rfl, rfl⟩ := exists_fin_of_inside (winsAt_inside hw)
    have hblank : b.grid i j = ' ' := (emptyAt_coe b i j).1 hw.1
    rcases fin_three i with rfl | rfl | rfl <;> rcases fin_three j with rfl | rfl | rfl
    · rw [g00] at hblank; exact absurd hblank (by decide)
    · rw [g01] at hblank; exact absurd hblank (by decide)
    · rfl
    all_goals exact absurd (by unfold scanBefore; decide) hnb

theorem getBestMove_win_now_witness :
    (∃ r c, (ComputerPlayer.new 'X').getBestMove boardB = .ok (some (r, c)) ∧
        boardB.winsAt 'X' r c ∧ ∀ r' c', scanBefore r' c' r c → ¬ boardB.winsAt 'X' r' c') ∧
      (ComputerPlayer.new 'X').getBestMove boardB = .ok (some (0, 2)) :=
  ⟨(getBestMove_win_now (ComputerPlayer.new 'X') boardB).1
      ⟨0, 2, by unfold Board.winsAt Board.emptyAt; decide⟩,
    (getBestMove_win_now (ComputerPlayer.new 'X') boardB).2 rfl (by decide) (by decide)
      (by decide)⟩

/-- C2 (block). For own mark `X` (opponent `O`) or own mark `O` (opponent `X`): if no blank
cell completes a line of the own mark and some blank cell completes a line of the opponent's
mark, `getBestMove` returns such a cell and no cell before it in row-major order is one. On the
board whose only marks are `O` at (1,0) and (1,1), `X` has no winning cell and `getBestMove`
for mark `X` returns (1,2). -/
theorem getBestMove_block (p : ComputerPlayer) (b : Board) :
    (∀ opp : Char, ((p.mark = 'X' ∧ opp = 'O') ∨ (p.mark = 'O' ∧ opp = 'X')) →
      (¬ ∃ r c, b.winsAt p.mark r c) → (∃ r c, b.winsAt opp r c) →
      ∃ r c, p.getBestMove b = .ok (some (r, c)) ∧ b.winsAt opp r c ∧
        ∀ r' c', scanBefore r' c' r c → ¬ b.winsAt opp r' c') ∧
    ((¬ ∃ r c, boardC.winsAt 'X' r c) ∧
      (ComputerPlayer.new 'X').getBestMove boardC = .ok (some (1, 2))) := by
  constructor
  · intro opp hopp hno h
    rw [← opponent_eq hopp] at h ⊢
    obtain ⟨r, c, hb, hw, hmin⟩ := bestMove_block b p.mark hno h
    exact ⟨r, c, by rw [getBestMove_eq, hb], hw, hmin⟩
  · exact ⟨no_winsAt_of_scan (by decide), by decide⟩

theorem getBestMove_block_witness :
    ∃ r c, (ComputerPlayer.new 'X').getBestMove boardC = .ok (some (r, c)) ∧
      boardC.winsAt 'O' r c ∧ ∀ r' c', scanBefore r' c' r c → ¬ boardC.winsAt 'O' r' c' :=
  (getBestMove_block (ComputerPlayer.new 'X') boardC).1 'O' (Or.inl ⟨rfl, rfl⟩)
    (no_winsAt_of_scan (by decide)) ⟨1, 2, by unfold Board.winsAt Board.emptyAt; decide⟩

/-- C3 (center). For own mark `X` (opponent `O`) or own mark `O` (opponent `X`): if no blank
cell completes a line of either mark and cell (1,1) is blank, `getBestMove` returns (1,1).
On the empty board with mark `X` it returns (1,1). -/
theorem getBestMove_center (p : ComputerPlayer) (b : Board) :
    (∀ opp : Char, ((p.mark = 'X' ∧ opp = 'O') ∨ (p.mark = 'O' ∧ opp = 'X')) →
      (¬ ∃ r c, b.winsAt p.mark r c) → (¬ ∃ r c, b.winsAt opp r c) → b.emptyAt 1 1 →
      p.getBestMove b = .ok (some (1, 1))) ∧
    (ComputerPlayer.new 'X').getBestMove Board.new = .ok (some (1, 1)) := by
  constructor
  · intro opp hopp hno hno' hc
    rw [← opponent_eq hopp] at hno'
    rw [getBestMove_eq, bestMove_quiet b p.mark hno hno',
      if_pos ((emptyAt_lit b 1 1 1 1 rfl rfl).1 hc)]
  · decide

theorem getBestMove_center_witness :
    (ComputerPlayer.new 'O').getBestMove (Board.ofRows ('X', ' ', ' ') (' ', ' ', ' ')
      (' ', ' ', ' ')) = .ok (some (1, 1)) :=
  (getBestMove_center (ComputerPlayer.new 'O') _).1 'X' (Or.inr ⟨rfl, rfl⟩)
    (no_winsAt_of_scan (by decide)) (no_winsAt_of_scan (by decide))
    (by unfold Board.emptyAt; decide)

/-- C4 (corner, then any). For own mark `X` (opponent `O`) or own mark `O` (opponent `X`),
on a board where no blank cell completes a line of either mark and the center (1,1) is not
blank: `getBestMove` returns the first blank cell among (0,0), (0,2), (2,0), (2,2) in that
order when one of them is blank; when none of the four is blank and the board has a blank
cell, it returns the first blank cell in row-major order (and no move when no cell is
blank). -/
theorem getBestMove_corner_then_any (p : ComputerPlayer) (b : Board) (opp : Char)
    (hopp : (p.mark = 'X' ∧ opp = 'O') ∨ (p.mark = 'O' ∧ opp = 'X'))
    (hno : ¬ ∃ r c, b.winsAt p.mark r c) (hno' : ¬ ∃ r c, b.winsAt opp r c)
    (hc : ¬ b.emptyAt 1 1) :
    (b.emptyAt 0 0 → p.getBestMove b = .ok (some (0, 0))) ∧
    (¬ b.emptyAt 0 0 → b.emptyAt 0 2 → p.getBestMove b = .ok (some (0, 2))) ∧
    (¬ b.emptyAt 0 0 → ¬ b.emptyAt 0 2 → b.emptyAt 2 0 →
      p.getBestMove b = .ok (some (2, 0))) ∧
    (¬ b.emptyAt 0 0 → ¬ b.emptyAt 0 2 → ¬ b.emptyAt 2 0 → b.emptyAt 2 2 →
      p.getBestMove b = .ok (some (2, 2))) ∧
    (¬ b.emptyAt 0 0 → ¬ b.emptyAt 0 2 → ¬ b.emptyAt 2 0 → ¬ b.emptyAt 2 2 →
      (∃ r c, b.emptyAt r c) →
      ∃ r c, p.getBestMove b = .ok (some (r, c)) ∧ b.emptyAt r c ∧
        ∀ r' c', scanBefore r' c' r c → ¬ b.emptyAt r' c') ∧
    ((¬ ∃ r c, b.emptyAt r c) → p.getBestMove b = .ok none) := by
  rw [← opponent_eq hopp] at hno'
  rw [getBestMove_eq, bestMove_quiet b p.mark hno hno']
  rw [emptyAt_lit b 1 1 1 1 rfl rfl] at hc
  rw [if_neg hc, emptyAt_lit b 0 0 0 0 rfl rfl, emptyAt_lit b 0 2 0 2 rfl rfl,
    emptyAt_lit b 2 0 2 0 rfl rfl, emptyAt_lit b 2 2 2 2 rfl rfl]
  refine ⟨?_, ?_, ?_, ?_, ?_, ?_⟩
  · intro h00
    simp [cornerPick, h00]
  · intro h00 h02
    simp [cornerPick, h00, h02]
  · intro h00 h02 h20
    simp [cornerPick, h00, h02, h20]
  · intro h00 h02 h20 h22
    simp [cornerPick, h00, h02, h20, h22]
  · intro h00 h02 h20 h22 hex
    rw [cornerPick_none b h00 h02 h20 h22]
    obtain ⟨r, c, hs, he, hmin⟩ := (scan_blankCell b).1 hex
    exact ⟨r, c, by rw [hs], he, hmin⟩
  · intro hex
    have h00 : b.grid 0 0 ≠ ' ' := fun h => hex ⟨0, 0, (emptyAt_lit b 0 0 0 0 rfl rfl).2 h⟩
    have h02 : b.grid 0 2 ≠ ' ' := fun h => hex ⟨0, 2, (emptyAt_lit b 0 2 0 2 rfl rfl).2 h⟩
    have h20 : b.grid 2 0 ≠ ' ' := fun h => hex ⟨2, 0, (emptyAt_lit b 2 0 2 0 rfl rfl).2 h⟩
    have h22 : b.grid 2 2 ≠ ' ' := fun h => hex ⟨2, 2, (emptyAt_lit b 2 2 2 2 rfl rfl).2 h⟩
    rw [cornerPick_none b h00 h02 h20 h22, (scan_blankCell b).2 hex]

theorem getBestMove_corner_then_any_witness :
    (ComputerPlayer.new 'X').getBestMove boardCorner = .ok (some (0, 2)) ∧
      ∃ r c, (ComputerPlayer.new 'X').getBestMove boardEdges = .ok (some (r, c)) ∧
        boardEdges.emptyAt r c ∧ ∀ r' c', scanBefore r' c' r c → ¬ boardEdges.emptyAt r' c' :=
  ⟨(getBestMove_corner_then_any (ComputerPlayer.new 'X') boardCorner 'O' (Or.inl ⟨rfl, rfl⟩)
      (no_winsAt_of_scan (by decide)) (no_winsAt_of_scan (by decide))
      (by unfold Board.emptyAt; decide)).2.1
      (by unfold Board.emptyAt; decide) (by unfold Board.emptyAt; decide),
    (getBestMove_corner_then_any (ComputerPlayer.new 'X') boardEdges 'O' (Or.inl ⟨rfl, rfl⟩)
      (no_winsAt_of_scan (by decide)) (no_winsAt_of_scan (by decide))
      (by unfold Board.emptyAt; decide)).2.2.2.2.1
      (by unfold Board.emptyAt; decide) (by unfold Board.emptyAt; decide)
      (by unfold Board.emptyAt; decide) (by unfold Board.emptyAt; decide)
      ⟨0, 1, by unfold Board.emptyAt; decide⟩⟩

/-- C5. `getBestMove` returns no move exactly when the board is full; when the board has a
blank cell it returns a cell `(r, c)` with `0 ≤ r, c < 3` that is blank, and `placeMark` of the
own mark on that cell succeeds. -/
theorem getBestMove_none_iff_full (p : ComputerPlayer) (b : Board) :
    (p.getBestMove b = .ok none ↔ b.isFull = true) ∧
    ((∃ r c, b.emptyAt r c) →
      ∃ r c, p.getBestMove b = .ok (some (r, c)) ∧ 0 ≤ r ∧ r < 3 ∧ 0 ≤ c ∧ c < 3 ∧
        b.emptyAt r c ∧ (b.placeMark r c p.mark).1 = true) := by
  rw [getBestMove_eq, isFull_iff_emptyAt, ← bestMove_none_iff b p.mark]
  constructor
  · constructor
    · intro h; injection h
    · intro h; rw [h]
  · intro hex
    cases h : bestMove b p.mark with
    | none => exact absurd hex ((bestMove_none_iff b p.mark).1 h)
    | some rc =>
      obtain ⟨r, c⟩ := rc
      have he := bestMove_some_empty b p.mark h
      have hin := emptyAt_inside he
      rw [outside_iff] at hin
      exact ⟨r, c, rfl, by omega, by omega, by omega, by omega, he,
        (placeMark_true_iff b r c p.mark).2 he⟩

theorem getBestMove_none_iff_full_witness :
    (∃ r c, (ComputerPlayer.new 'O').getBestMove boardEdges = .ok (some (r, c)) ∧
        0 ≤ r ∧ r < 3 ∧ 0 ≤ c ∧ c < 3 ∧ boardEdges.emptyAt r c ∧
        (boardEdges.placeMark r c 'O').1 = true) ∧
      (ComputerPlayer.new 'O').getBestMove boardFull = .ok none :=
  ⟨(getBestMove_none_iff_full (ComputerPlayer.new 'O') boardEdges).2
      ⟨0, 1, by unfold Board.emptyAt; decide⟩,
    (getBestMove_none_iff_full (ComputerPlayer.new 'O') boardFull).1.2 (by decide)⟩

/-! ## The board: claims C6 to C10 -/

/-- C6. `checkWin mark` is true exactly when one of the 8 lines (3 rows, 3 columns, 2
diagonals) has its three cells equal to `mark`. On a board whose row 0 is `X`, `X`, `X` and
that has no line of `O`, `checkWin 'X'` is true and `checkWin 'O'` is false. -/
theorem checkWin_iff_line (b : Board) (mark : Char) :
    (b.checkWin mark = true ↔ ∃ l ∈ lines, ∀ rc ∈ l, b.grid rc.1 rc.2 = mark) ∧
    ((∀ j, b.grid 0 j = 'X') → (¬ ∃ l ∈ lines, ∀ rc ∈ l, b.grid rc.1 rc.2 = 'O') →
      b.checkWin 'X' = true ∧ b.checkWin 'O' = false) := by
  refine ⟨checkWin_iff_hasLine b mark, ?_⟩
  intro hrow hno
  constructor
  · rw [checkWin_iff_hasLine]
    refine ⟨[(0, 0), (0, 1), (0, 2)], by simp [lines], ?_⟩
    intro rc hrc
    simp only [List.mem_cons, List.mem_singleton, List.not_mem_nil, or_false] at hrc
    rcases hrc with rfl | rfl | rfl <;> exact hrow _
  · cases h : b.checkWin 'O' with
    | false => rfl
    | true => exact absurd ((checkWin_iff_hasLine b 'O').1 h) hno

theorem checkWin_iff_line_witness :
    boardRowX.checkWin 'X' = true ∧ boardRowX.checkWin 'O' = false :=
  (checkWin_iff_line boardRowX 'X').2 (by decide) (by decide)

/-- C7, the claim as written fails: on the fresh board `placeMark(0, 0, ' ')` returns `true`
and cell (0,0) is still blank afterwards. -/
theorem placeMark_blank_mark_counterexample :
    (Board.new.placeMark 0 0 ' ').1 = true ∧
      (Board.new.placeMark 0 0 ' ').2.getCell 0 0 = .ok ' ' := by
  decide

/-- C7, amended. `placeMark row col mark` returns `true` exactly when `0 ≤ row < 3`,
`0 ≤ col < 3` and cell `(row, col)` is blank; when it returns `true`, cell `(row, col)` holds
`mark` afterwards (so it is no longer blank when `mark` is not the blank character) and every
other cell is unchanged. -/
theorem placeMark_succeeds_iff (b : Board) (row col : Int) (mark : Char) :
    ((b.placeMark row col mark).1 = true ↔
      (0 ≤ row ∧ row < 3 ∧ 0 ≤ col ∧ col < 3 ∧ b.getCell row col = .ok ' ')) ∧
    ((b.placeMark row col mark).1 = true →
      (b.placeMark row col mark).2.getCell row col = .ok mark ∧
      (mark ≠ ' ' → (b.placeMark row col mark).2.getCell row col ≠ .ok ' ') ∧
      ∀ r c : Int, (r ≠ row ∨ c ≠ col) →
        (b.placeMark row col mark).2.getCell r c = b.getCell r c) := by
  constructor
  · rw [placeMark_true_iff]
    constructor
    · intro he
      have hin := emptyAt_inside he
      rw [outside_iff] at hin
      exact ⟨by omega, by omega, by omega, by omega, he⟩
    · intro h; exact h.2.2.2.2
  · intro hok
    have he := (placeMark_true_iff b row col mark).1 hok
    obtain ⟨i, j, hr, hc⟩ := exists_fin_of_inside (emptyAt_inside he)
    have hcell : (b.placeMark row col mark).2.getCell row col = .ok mark := by
      rw [getCell_lit _ i j row col hr hc, placeMark_true_grid b row col mark hok,
        if_pos ⟨hr, hc⟩]
    refine ⟨hcell, ?_, ?_⟩
    · intro hm h
      rw [hcell] at h
      injection h with h'
      exact hm h'
    · intro r c hne
      by_cases ho : outside r c
      · rw [getCell_outside _ ho, getCell_outside _ ho]
      · obtain ⟨i', j', rfl, rfl⟩ := exists_fin_of_inside ho
        rw [getCell_coe, getCell_coe, placeMark_true_grid b row col mark hok, if_neg]
        rintro ⟨h1, h2⟩
        rcases hne with h | h
        · exact h h1.symm
        · exact h h2.symm

theorem placeMark_succeeds_iff_witness :
    (Board.new.placeMark 1 2 'X').2.getCell 1 2 = .ok 'X' ∧
      ((Board.new.placeMark 1 2 'X').2.getCell 1 2 ≠ .ok ' ') ∧
      ∀ r c : Int, (r ≠ 1 ∨ c ≠ 2) →
        (Board.new.placeMark 1 2 'X').2.getCell r c = Board.new.getCell r c :=
  have h := (placeMark_succeeds_iff Board.new 1 2 'X').2 (by decide)
  ⟨h.1, h.2.1 (by decide), h.2.2⟩

/-- C8. When `row` or `col` lies outside `[0, 3)` or cell `(row, col)` is occupied,
`placeMark row col mark` returns `false` and the board afterwards is the board before. -/
theorem placeMark_rejected (b : Board) (row col : Int) (mark : Char)
    (h : (row < 0 ∨ 3 ≤ row ∨ col < 0 ∨ 3 ≤ col) ∨
      ∃ ch, b.getCell row col = .ok ch ∧ ch ≠ ' ') :
    (b.placeMark row col mark).1 = false ∧ (b.placeMark row col mark).2 = b := by
  have hfalse : (b.placeMark row col mark).1 = false := by
    cases hok : (b.placeMark row col mark).1 with
    | false => rfl
    | true =>
      have he := (placeMark_true_iff b row col mark).1 hok
      rcases h with h | ⟨ch, hch, hne⟩
      · exact absurd ((outside_iff row col).2 h) (emptyAt_inside he)
      · unfold Board.emptyAt at he
        rw [hch] at he
        injection he with he'
        exact absurd he' hne
  exact ⟨hfalse, placeMark_false b row col mark hfalse⟩

theorem placeMark_rejected_witness :
    ((boardC.placeMark 1 0 'X').1 = false ∧ (boardC.placeMark 1 0 'X').2 = boardC) ∧
      ((boardC.placeMark 3 0 'X').1 = false ∧ (boardC.placeMark 3 0 'X').2 = boardC) :=
  ⟨placeMark_rejected boardC 1 0 'X' (Or.inr ⟨'O', by decide, by decide⟩),
    placeMark_rejected boardC 3 0 'X' (Or.inl (by decide))⟩

/-- C9. `getCell row col` fails with the out-of-range error exactly when `row` or `col` lies
outside `[0, 3)`. For in-range coordinates it returns the content of that cell of the grid;
on the fresh board that is the blank character, and after any sequence of `placeMark` calls
on the fresh board it is the mark of the last call on that cell that returned `true` (blank
when there was none). -/
theorem getCell_spec (b : Board) (row col : Int) :
    (b.getCell row col = .error .outOfRange ↔ (row < 0 ∨ 3 ≤ row ∨ col < 0 ∨ 3 ≤ col)) ∧
    ((0 ≤ row ∧ row < 3 ∧ 0 ≤ col ∧ col < 3) →
      (∃ i j : Fin BOARD_SIZE, (i.val : Int) = row ∧ (j.val : Int) = col ∧
        b.getCell row col = .ok (b.grid i j)) ∧
      Board.new.getCell row col = .ok ' ' ∧
      ∀ ops : List Placement, (Board.new.placeAll ops).getCell row col =
        .ok (match lastMarkOn row col (Board.new.accepted ops) with
          | some m => m
          | none => ' ')) := by
  constructor
  · rw [← outside_iff]
    constructor
    · intro h
      by_contra ho
      obtain ⟨i, j, rfl, rfl⟩ := exists_fin_of_inside ho
      rw [getCell_coe] at h
      cases h
    · exact getCell_outside b
  · intro hin
    have ho : ¬ outside row col := by rw [outside_iff]; omega
    obtain ⟨i, j, rfl, rfl⟩ := exists_fin_of_inside ho
    refine ⟨⟨i, j, rfl, rfl, getCell_coe b i j⟩, getCell_coe Board.new i j, ?_⟩
    intro ops
    rw [getCell_coe, placeAll_grid]
    rfl

theorem getCell_spec_witness :
    (Board.new.placeAll [(0, 0, 'X'), (1, 1, 'O'), (0, 0, 'O'), (5, 1, 'X')]).getCell 0 0 =
      .ok 'X' :=
  ((getCell_spec Board.new 0 0).2 (by decide)).2.2
    [(0, 0, 'X'), (1, 1, 'O'), (0, 0, 'O'), (5, 1, 'X')]

/-- C10. `isFull` is true exactly when none of the nine cells is blank. -/
theorem isFull_iff_no_blank (b : Board) :
    b.isFull = true ↔ ∀ i j : Fin BOARD_SIZE, b.grid i j ≠ ' ' :=
  isFull_iff_grid b

/-! ## The loop body of `start` -/

theorem applyMove_rejected (g : TicTacToeGame) (row col : Int)
    (h : (g.board.placeMark row col g.currentPlayer.mark).1 = false) :
    g.applyMove row col = g := by
  unfold TicTacToeGame.applyMove
  simp only [h, Bool.not_false, if_true]
  rw [placeMark_false _ _ _ _ h]

theorem applyMove_won (g : TicTacToeGame) (row col : Int)
    (h : (g.board.placeMark row col g.currentPlayer.mark).1 = true)
    (hw : (g.board.placeMark row col g.currentPlayer.mark).2.checkWin g.currentPlayer.mark
      = true) :
    g.applyMove row col =
      { g with board := (g.board.placeMark row col g.currentPlayer.mark).2,
               status := .won g.currentPlayer } := by
  unfold TicTacToeGame.applyMove
  simp only [h, hw, Bool.not_true, Bool.false_eq_true, if_false, if_true]

theorem applyMove_draw (g : TicTacToeGame) (row col : Int)
    (h : (g.board.placeMark row col g.currentPlayer.mark).1 = true)
    (hw : (g.board.placeMark row col g.currentPlayer.mark).2.checkWin g.currentPlayer.mark
      = false)
    (hf : (g.board.placeMark row col g.currentPlayer.mark).2.isFull = true) :
    g.applyMove row col =
      { g with board := (g.board.placeMark row col g.currentPlayer.mark).2,
               status := .draw } := by
  unfold TicTacToeGame.applyMove
  simp only [h, hw, hf, Bool.not_true, Bool.false_eq_true, if_false, if_true]

theorem applyMove_switch (g : TicTacToeGame) (row col : Int)
    (h : (g.board.placeMark row col g.currentPlayer.mark).1 = true)
    (hw : (g.board.placeMark row col g.currentPlayer.mark).2.checkWin g.currentPlayer.mark
      = false)
    (hf : (g.board.placeMark row col g.currentPlayer.mark).2.isFull = false) :
    g.applyMove row col =
      { g with board := (g.board.placeMark row col g.currentPlayer.mark).2,
               currentIsPlayer1 := if g.currentIsPlayer1 then false else true } := by
  unfold TicTacToeGame.applyMove
  simp only [h, hw, hf, Bool.not_true, Bool.false_eq_true, if_false]

/-- The four outcomes of the loop body, as one case distinction. -/
theorem applyMove_cases (g : TicTacToeGame) (row col : Int) :
    ((g.board.placeMark row col g.currentPlayer.mark).1 = false ∧ g.applyMove row col = g) ∨
    ((g.board.placeMark row col g.currentPlayer.mark).1 = true ∧
      (g.board.placeMark row col g.currentPlayer.mark).2.checkWin g.currentPlayer.mark = true ∧
      g.applyMove row col =
        { g with board := (g.board.placeMark row col g.currentPlayer.mark).2,
                 status := .won g.currentPlayer }) ∨
    ((g.board.placeMark row col g.currentPlayer.mark).1 = true ∧
      (g.board.placeMark row col g.currentPlayer.mark).2.checkWin g.currentPlayer.mark = false ∧
      (g.board.placeMark row col g.currentPlayer.mark).2.isFull = true ∧
      g.applyMove row col =
        { g with board := (g.board.placeMark row col g.currentPlayer.mark).2,
                 status := .draw }) ∨
    ((g.board.placeMark row col g.currentPlayer.mark).1 = true ∧
      (g.board.placeMark row col g.currentPlayer.mark).2.checkWin g.currentPlayer.mark = false ∧
      (g.board.placeMark row col g.currentPlayer.mark).2.isFull = false ∧
      g.applyMove row col =
        { g with board := (g.board.placeMark row col g.currentPlayer.mark).2,
                 currentIsPlayer1 := if g.currentIsPlayer1 then false else true }) := by
  cases h : (g.board.placeMark row col g.currentPlayer.mark).1 with
  | false => exact Or.inl ⟨rfl, applyMove_rejected g row col h⟩
  | true =>
    cases hw : (g.board.placeMark row col g.currentPlayer.mark).2.checkWin
        g.currentPlayer.mark with
    | true => exact Or.inr (Or.inl ⟨rfl, rfl, applyMove_won g row col h hw⟩)
    | false =>
      cases hf : (g.board.placeMark row col g.currentPlayer.mark).2.isFull with
      | true => exact Or.inr (Or.inr (Or.inl ⟨rfl, rfl, rfl, applyMove_draw g row col h hw hf⟩))
      | false =>
        exact Or.inr (Or.inr (Or.inr ⟨rfl, rfl, rfl, applyMove_switch g row col h hw hf⟩))

/-! ## Counting blank cells -/

theorem placeMark_accepted_eq (b : Board) (row col : Int) (m : Char)
    (h : (b.placeMark row col m).1 = true) :
    ∃ i j : Fin BOARD_SIZE, row = (i.val : Int) ∧ col = (j.val : Int) ∧ b.grid i j = ' ' ∧
      (b.placeMark row col m).2 = b.assign i j m := by
  have he := (placeMark_true_iff b row col m).1 h
  obtain ⟨i, j, rfl, rfl⟩ := exists_fin_of_inside (emptyAt_inside he)
  have hb : b.grid i j = ' ' := (emptyAt_coe b i j).1 he
  refine ⟨i, j, rfl, rfl, hb, ?_⟩
  rw [placeMark_coe]
  simp [hb]

theorem emptyCount_new : Board.new.emptyCount = 9 := by
  unfold Board.emptyCount Board.new
  simp
  rfl

theorem emptyCount_le (b : Board) : b.emptyCount ≤ 9 := by
  unfold Board.emptyCount
  have h := Finset.card_filter_le (Finset.univ : Finset (Fin BOARD_SIZE × Fin BOARD_SIZE))
    (fun ij => b.grid ij.1 ij.2 = ' ')
  have h9 : (Finset.univ : Finset (Fin BOARD_SIZE × Fin BOARD_SIZE)).card = 9 := by rfl
  omega

theorem isFull_iff_emptyCount (b : Board) : b.isFull = true ↔ b.emptyCount = 0 := by
  rw [isFull_iff_grid]
  unfold Board.emptyCount
  rw [Finset.card_eq_zero, Finset.filter_eq_empty_iff]
  constructor
  · intro h ij _
    exact h ij.1 ij.2
  · intro h i j
    exact h (Finset.mem_univ (i, j))

theorem emptyCount_assign (b : Board) (i j : Fin BOARD_SIZE) (m : Char)
    (hb : b.grid i j = ' ') (hm : m ≠ ' ') :
    (b.assign i j m).emptyCount + 1 = b.emptyCount := by
  unfold Board.emptyCount
  have hmem : (i, j) ∈ Finset.univ.filter
      (fun ij : Fin BOARD_SIZE × Fin BOARD_SIZE => b.grid ij.1 ij.2 = ' ') := by
    simp [hb]
  have herase : Finset.univ.filter
      (fun ij : Fin BOARD_SIZE × Fin BOARD_SIZE => (b.assign i j m).grid ij.1 ij.2 = ' ') =
      (Finset.univ.filter
        (fun ij : Fin BOARD_SIZE × Fin BOARD_SIZE => b.grid ij.1 ij.2 = ' ')).erase (i, j) := by
    ext ⟨i', j'⟩
    simp only [Finset.mem_filter, Finset.mem_univ, true_and, Finset.mem_erase, Board.assign,
      ne_eq, Prod.mk.injEq]
    by_cases h : i' = i ∧ j' = j
    · simp [h, hm]
    · simp [h]
  rw [herase, Finset.card_erase_of_mem hmem]
  have hpos : 0 < (Finset.univ.filter
      (fun ij : Fin BOARD_SIZE × Fin BOARD_SIZE => b.grid ij.1 ij.2 = ' ')).card :=
    Finset.card_pos.2 ⟨_, hmem⟩
  omega

theorem emptyCount_placeMark (b : Board) (row col : Int) (m : Char)
    (h : (b.placeMark row col m).1 = true) (hm : m ≠ ' ') :
    (b.placeMark row col m).2.emptyCount + 1 = b.emptyCount := by
  obtain ⟨i, j, -, -, hb, heq⟩ := placeMark_accepted_eq b row col m h
  rw [heq]
  exact emptyCount_assign b i j m hb hm

/-! ## Lines after a placement -/

theorem hasLine_of_assign (b : Board) (i j : Fin BOARD_SIZE) (m m' : Char) (hne : m' ≠ m)
    (h : (b.assign i j m).hasLine m') : b.hasLine m' := by
  obtain ⟨l, hl, hall⟩ := h
  refine ⟨l, hl, ?_⟩
  intro rc hrc
  have := hall rc hrc
  simp only [Board.assign] at this
  by_cases hc : rc.1 = i ∧ rc.2 = j
  · rw [if_pos hc] at this
    exact absurd this.symm hne
  · rw [if_neg hc] at this
    exact this

theorem checkWin_of_placeMark (b : Board) (row col : Int) (m m' : Char) (hne : m' ≠ m)
    (h : (b.placeMark row col m).1 = true)
    (hw : (b.placeMark row col m).2.checkWin m' = true) : b.checkWin m' = true := by
  obtain ⟨i, j, -, -, -, heq⟩ := placeMark_accepted_eq b row col m h
  rw [heq, checkWin_iff_hasLine] at hw
  rw [checkWin_iff_hasLine]
  exact hasLine_of_assign b i j m m' hne hw

/-! ## Runs of the game loop -/

theorem applyMove_fields (g : TicTacToeGame) (row col : Int) :
    (g.applyMove row col).player1 = g.player1 ∧ (g.applyMove row col).player2 = g.player2 ∧
      (g.applyMove row col).isVsComputer = g.isVsComputer := by
  rcases applyMove_cases g row col with ⟨-, h⟩ | ⟨-, -, h⟩ | ⟨-, -, -, h⟩ | ⟨-, -, -, h⟩ <;>
    rw [h] <;> exact ⟨rfl, rfl, rfl⟩

theorem playAll_cons_awaiting (g : TicTacToeGame) (req : Int × Int) (rest : List (Int × Int))
    (h : g.status = .awaitingMove) :
    g.playAll (req :: rest) = (g.applyMove req.1 req.2).playAll rest := by
  rw [TicTacToeGame.playAll]
  simp only [h]

theorem playAll_cons_ended (g : TicTacToeGame) (req : Int × Int) (rest : List (Int × Int))
    (h : g.status ≠ .awaitingMove) : g.playAll (req :: rest) = g := by
  rw [TicTacToeGame.playAll]
  cases hs : g.status with
  | awaitingMove => exact absurd hs h
  | won w => rfl
  | draw => rfl

theorem acceptedMoves_cons_ended (g : TicTacToeGame) (req : Int × Int)
    (rest : List (Int × Int)) (h : g.status ≠ .awaitingMove) :
    g.acceptedMoves (req :: rest) = [] := by
  rw [TicTacToeGame.acceptedMoves]
  cases hs : g.status with
  | awaitingMove => exact absurd hs h
  | won w => rfl
  | draw => rfl

theorem acceptedMoves_cons_awaiting (g : TicTacToeGame) (req : Int × Int)
    (rest : List (Int × Int)) (h : g.status = .awaitingMove) :
    g.acceptedMoves (req :: rest) =
      if (g.board.placeMark req.1 req.2 g.currentPlayer.mark).1 then
        (g.currentIsPlayer1, req.1, req.2) :: (g.applyMove req.1 req.2).acceptedMoves rest
      else (g.applyMove req.1 req.2).acceptedMoves rest := by
  rw [TicTacToeGame.acceptedMoves]
  simp only [h]

/-- A property kept by every iteration from an `awaitingMove` state holds after any sequence of
move requests. -/
theorem playAll_invariant (P : TicTacToeGame → Prop)
    (hstep : ∀ g row col, P g → g.status = .awaitingMove → P (g.applyMove row col))
    (g : TicTacToeGame) (reqs : List (Int × Int)) (h : P g) : P (g.playAll reqs) := by
  induction reqs generalizing g with
  | nil => exact h
  | cons req rest ih =>
    by_cases hs : g.status = .awaitingMove
    · rw [playAll_cons_awaiting g req rest hs]
      exact ih _ (hstep g req.1 req.2 h hs)
    · rw [playAll_cons_ended g req rest hs]
      exact h

theorem turn_ok_applyMove (g g' : TicTacToeGame) (input : Int × Int)
    (h : g.turn input = .ok g') : ∃ row col, g' = g.applyMove row col := by
  unfold TicTacToeGame.turn at h
  cases hc : g.chooseMove input with
  | error e => rw [hc] at h; cases h
  | ok move =>
    rw [hc] at h
    injection h with h
    exact ⟨move.1, move.2, h.symm⟩

/-- The same for the iterations of `start`, where the computer's moves come from the
heuristic. -/
theorem start_invariant (P : TicTacToeGame → Prop)
    (hstep : ∀ g row col, P g → g.status = .awaitingMove → P (g.applyMove row col))
    (g g' : TicTacToeGame) (inputs : List (Int × Int)) (h : P g)
    (hrun : g.start inputs = .ok g') : P g' := by
  induction inputs generalizing g with
  | nil =>
    injection hrun with hrun
    rw [← hrun]; exact h
  | cons input rest ih =>
    rw [TicTacToeGame.start] at hrun
    by_cases hs : g.status = .awaitingMove
    · simp only [hs] at hrun
      cases ht : g.turn input with
      | error e => rw [ht] at hrun; cases hrun
      | ok g1 =>
        rw [ht] at hrun
        obtain ⟨row, col, rfl⟩ := turn_ok_applyMove g g1 input ht
        exact ih _ (hstep g row col h hs) hrun
    · cases hst : g.status with
      | awaitingMove => exact absurd hst hs
      | won w =>
        simp only [hst] at hrun
        injection hrun with hrun
        rw [← hrun]; exact h
      | draw =>
        simp only [hst] at hrun
        injection hrun with hrun
        rw [← hrun]; exact h

theorem applyMove_board (g : TicTacToeGame) (row col : Int) :
    (g.applyMove row col).board = (g.board.placeMark row col g.currentPlayer.mark).2 := by
  rcases applyMove_cases g row col with ⟨h0, h⟩ | ⟨-, -, h⟩ | ⟨-, -, -, h⟩ | ⟨-, -, -, h⟩
  · rw [h, placeMark_false _ _ _ _ h0]
  all_goals rw [h]

theorem notFull_step (g : TicTacToeGame) (row col : Int) (h : NotFullWhileAwaiting g)
    (_hs : g.status = .awaitingMove) : NotFullWhileAwaiting (g.applyMove row col) := by
  rcases applyMove_cases g row col with ⟨-, he⟩ | ⟨-, -, he⟩ | ⟨-, -, -, he⟩ | ⟨-, -, hf, he⟩
  · rw [he]; exact h
  · rw [he]; intro hs; cases hs
  · rw [he]; intro hs; cases hs
  · rw [he]; intro _; exact hf

theorem notFull_new (p1 p2 : IPlayer) (v : Bool) :
    NotFullWhileAwaiting (TicTacToeGame.new Board.new p1 p2 v) := by
  intro _
  rfl

theorem isFull_false_iff (b : Board) : b.isFull = false ↔ ∃ r c, b.emptyAt r c := by
  have h := isFull_iff_emptyAt b
  constructor
  · intro hf
    by_contra hno
    rw [h.2 hno] at hf
    cases hf
  · intro hex
    cases hf : b.isFull with
    | false => rfl
    | true => exact absurd hex (h.1 hf)

/-- On a board that is not full the heuristic returns a cell that `placeMark` accepts. -/
theorem getBestMove_accepted (p : ComputerPlayer) (b : Board) (m : Char)
    (hf : b.isFull = false) :
    ∃ r c, p.getBestMove b = .ok (some (r, c)) ∧ (b.placeMark r c m).1 = true := by
  have hex := (isFull_false_iff b).1 hf
  cases h : bestMove b p.mark with
  | none => exact absurd hex ((bestMove_none_iff b p.mark).1 h)
  | some rc =>
    obtain ⟨r, c⟩ := rc
    exact ⟨r, c, by rw [getBestMove_eq, h],
      (placeMark_true_iff b r c m).2 (bestMove_some_empty b p.mark h)⟩

theorem chooseMove_ok (g : TicTacToeGame) (input : Int × Int) (hf : g.board.isFull = false) :
    ∃ move, g.chooseMove input = .ok move := by
  unfold TicTacToeGame.chooseMove
  by_cases hc : (g.isVsComputer && g.currentPlayer.name == "Computer") = true
  · rw [if_pos hc]
    obtain ⟨r, c, hb, -⟩ := getBestMove_accepted g.currentPlayer.asComputer g.board 'X' hf
    rw [hb]
    exact ⟨(r, c), rfl⟩
  · rw [if_neg hc]
    exact ⟨input, rfl⟩

theorem start_ok (g : TicTacToeGame) (inputs : List (Int × Int))
    (h : NotFullWhileAwaiting g) : ∃ g', g.start inputs = .ok g' := by
  induction inputs generalizing g with
  | nil => exact ⟨g, rfl⟩
  | cons input rest ih =>
    rw [TicTacToeGame.start]
    cases hs : g.status with
    | awaitingMove =>
      obtain ⟨move, hm⟩ := chooseMove_ok g input (h hs)
      simp only [TicTacToeGame.turn, hm]
      exact ih _ (notFull_step g move.1 move.2 h hs)
    | won w => exact ⟨g, rfl⟩
    | draw => exact ⟨g, rfl⟩

/-! ## The game loop: claims C12 to C17 -/

/-- C12 (win transition). In an `awaitingMove` state, when `placeMark` accepts the active
player's move and `checkWin` of that player's mark is then true, the iteration ends the game in
`won` with that player as winner, on the board with the mark placed; this is so whether or not
the move filled the board (the result is never `draw`). -/
theorem applyMove_win (g : TicTacToeGame) (row col : Int)
    (_hs : g.status = .awaitingMove)
    (h : (g.board.placeMark row col g.currentPlayer.mark).1 = true)
    (hw : (g.board.placeMark row col g.currentPlayer.mark).2.checkWin g.currentPlayer.mark
      = true) :
    (g.applyMove row col).status = .won g.currentPlayer ∧
    (g.applyMove row col).board = (g.board.placeMark row col g.currentPlayer.mark).2 ∧
    (∀ full : Bool, (g.board.placeMark row col g.currentPlayer.mark).2.isFull = full →
      (g.applyMove row col).status ≠ .draw) := by
  rw [applyMove_won g row col h hw]
  refine ⟨rfl, rfl, ?_⟩
  intro _ _ hd
  cases hd

theorem applyMove_win_witness :
    ((gameOn boardLastWins).board.placeMark 2 2 'X').2.isFull = true ∧
      ((gameOn boardLastWins).applyMove 2 2).status = .won ⟨"Player 1", 'X'⟩ :=
  ⟨by decide, (applyMove_win (gameOn boardLastWins) 2 2 rfl (by decide) (by decide)).1⟩

/-- C13 (draw transition). In an `awaitingMove` state, when `placeMark` accepts the active
player's move, that player's mark has no line afterwards and the board is full, the iteration
ends the game in `draw`, not in a win. -/
theorem applyMove_draw_transition (g : TicTacToeGame) (row col : Int)
    (_hs : g.status = .awaitingMove)
    (h : (g.board.placeMark row col g.currentPlayer.mark).1 = true)
    (hw : (g.board.placeMark row col g.currentPlayer.mark).2.checkWin g.currentPlayer.mark
      = false)
    (hf : (g.board.placeMark row col g.currentPlayer.mark).2.isFull = true) :
    (g.applyMove row col).status = .draw ∧
    (∀ w, (g.applyMove row col).status ≠ .won w) ∧
    (g.applyMove row col).board = (g.board.placeMark row col g.currentPlayer.mark).2 := by
  rw [applyMove_draw g row col h hw hf]
  refine ⟨rfl, ?_, rfl⟩
  intro w hd
  cases hd

theorem applyMove_draw_transition_witness :
    ((gameOn boardLastDraws).applyMove 2 2).status = .draw ∧
      ((gameOn boardLastDraws).applyMove 2 2).board.checkWin 'X' = false ∧
      ((gameOn boardLastDraws).applyMove 2 2).board.checkWin 'O' = false :=
  ⟨(applyMove_draw_transition (gameOn boardLastDraws) 2 2 rfl (by decide) (by decide)
      (by decide)).1, by decide, by decide⟩

theorem acceptedMoves_ended (g : TicTacToeGame) (reqs : List (Int × Int))
    (h : g.status ≠ .awaitingMove) : g.acceptedMoves reqs = [] := by
  cases reqs with
  | nil => rfl
  | cons req rest => exact acceptedMoves_cons_ended g req rest h

theorem playAll_ended (g : TicTacToeGame) (reqs : List (Int × Int))
    (h : g.status ≠ .awaitingMove) : g.playAll reqs = g := by
  cases reqs with
  | nil => rfl
  | cons req rest => exact playAll_cons_ended g req rest h

theorem movers_alternate (g : TicTacToeGame) (reqs : List (Int × Int)) :
    (g.acceptedMoves reqs).map (fun mv => mv.1) =
      alternate g.currentIsPlayer1 (g.acceptedMoves reqs).length := by
  induction reqs generalizing g with
  | nil => rfl
  | cons req rest ih =>
    by_cases hs : g.status = .awaitingMove
    · rw [acceptedMoves_cons_awaiting g req rest hs]
      rcases applyMove_cases g req.1 req.2 with
        ⟨h0, he⟩ | ⟨h1, -, he⟩ | ⟨h1, -, -, he⟩ | ⟨h1, -, -, he⟩
      · rw [if_neg (by rw [h0]; decide), he]
        exact ih g
      · rw [if_pos h1, he, acceptedMoves_ended _ rest (by intro hh; cases hh)]
        rfl
      · rw [if_pos h1, he, acceptedMoves_ended _ rest (by intro hh; cases hh)]
        rfl
      · rw [if_pos h1, he]
        simp only [List.map_cons, List.length_cons, alternate]
        rw [ih]
        cases g.currentIsPlayer1 <;> rfl
    · rw [acceptedMoves_cons_ended g req rest hs]
      rfl

/-- C14 (turn alternation). In an `awaitingMove` state, when the active player's move is
accepted, completes no line of that player's mark and does not fill the board, the next state
is `awaitingMove` with the other player active. So from the constructor's state, where
`player1` is active, the movers of the accepted moves are `player1, player2, player1, ...`. -/
theorem applyMove_alternates (g : TicTacToeGame) (row col : Int) :
    (g.status = .awaitingMove →
      (g.board.placeMark row col g.currentPlayer.mark).1 = true →
      (g.board.placeMark row col g.currentPlayer.mark).2.checkWin g.currentPlayer.mark = false →
      (g.board.placeMark row col g.currentPlayer.mark).2.isFull = false →
      (g.applyMove row col).status = .awaitingMove ∧
      (g.applyMove row col).currentIsPlayer1 = (!g.currentIsPlayer1) ∧
      (g.applyMove row col).currentPlayer =
        (if g.currentIsPlayer1 then g.player2 else g.player1) ∧
      (g.applyMove row col).player1 = g.player1 ∧ (g.applyMove row col).player2 = g.player2) ∧
    (∀ (b : Board) (p1 p2 : IPlayer) (v : Bool) (reqs : List (Int × Int)),
      ((TicTacToeGame.new b p1 p2 v).acceptedMoves reqs).map (fun mv => mv.1) =
        alternate true ((TicTacToeGame.new b p1 p2 v).acceptedMoves reqs).length) := by
  constructor
  · intro hs h hw hf
    rw [applyMove_switch g row col h hw hf]
    rw [hs]
    refine ⟨rfl, ?_, ?_, rfl, rfl⟩
    · cases g.currentIsPlayer1 <;> rfl
    · unfold TicTacToeGame.currentPlayer
      cases g.currentIsPlayer1 <;> rfl
  · intro b p1 p2 v reqs
    exact movers_alternate (TicTacToeGame.new b p1 p2 v) reqs

theorem applyMove_alternates_witness :
    (((mainGame 1).applyMove 1 1).status = .awaitingMove ∧
        ((mainGame 1).applyMove 1 1).currentIsPlayer1 = false) ∧
      ((mainGame 1).acceptedMoves [(1, 1), (1, 1), (0, 0), (7, 0), (2, 2)]).map
        (fun mv => mv.1) = [true, false, true] :=
  ⟨⟨((applyMove_alternates (mainGame 1) 1 1).1 rfl (by decide) (by decide) (by decide)).1,
      ((applyMove_alternates (mainGame 1) 1 1).1 rfl (by decide) (by decide) (by decide)).2.1⟩,
    (applyMove_alternates (mainGame 1) 0 0).2 Board.new ⟨"Player 1", 'X'⟩ ⟨"Player 2", 'O'⟩
      false [(1, 1), (1, 1), (0, 0), (7, 0), (2, 2)]⟩

/-- C15 (rejected move). In an `awaitingMove` state, when `placeMark` rejects the requested
cell, the iteration leaves the game state as it was: same board, same active player, still
`awaitingMove`. -/
theorem applyMove_rejected_unchanged (g : TicTacToeGame) (row col : Int)
    (hs : g.status = .awaitingMove)
    (h : (g.board.placeMark row col g.currentPlayer.mark).1 = false) :
    g.applyMove row col = g ∧ (g.applyMove row col).board = g.board ∧
      (g.applyMove row col).currentIsPlayer1 = g.currentIsPlayer1 ∧
      (g.applyMove row col).status = .awaitingMove := by
  rw [applyMove_rejected g row col h]
  exact ⟨rfl, rfl, rfl, hs⟩

theorem applyMove_rejected_unchanged_witness :
    ((gameOn boardC).applyMove 1 0).status = .awaitingMove ∧
      ((gameOn boardC).applyMove 3 3).currentIsPlayer1 = true :=
  ⟨(applyMove_rejected_unchanged (gameOn boardC) 1 0 rfl (by decide)).2.2.2,
    (applyMove_rejected_unchanged (gameOn boardC) 3 3 rfl (by decide)).2.2.1⟩

/-- C16 (the computer always finds a move). From the game `main` builds for choice 2
(empty board, `Player 1` with `X` to move, `Computer` with `O`), `start` raises no exception
whatever is typed; in every state it reaches with a move awaited the board is not full, and on
a computer turn `getBestMove` returns a move, which is the move of the iteration and which
`placeMark` accepts. -/
theorem computer_always_moves (inputs : List (Int × Int)) :
    ∃ g, (mainGame 2).start inputs = .ok g ∧
      (g.status = .awaitingMove →
        g.board.isFull = false ∧
        ((g.isVsComputer = true ∧ g.currentPlayer.name = "Computer") →
          ∃ r c, g.currentPlayer.asComputer.getBestMove g.board = .ok (some (r, c)) ∧
            (∀ input, g.chooseMove input = .ok (r, c)) ∧
            (g.board.placeMark r c g.currentPlayer.mark).1 = true)) := by
  have h0 : NotFullWhileAwaiting (mainGame 2) := notFull_new _ _ _
  obtain ⟨g, hg⟩ := start_ok (mainGame 2) inputs h0
  have hinv : NotFullWhileAwaiting g :=
    start_invariant NotFullWhileAwaiting notFull_step (mainGame 2) g inputs h0 hg
  refine ⟨g, hg, ?_⟩
  intro hs
  refine ⟨hinv hs, ?_⟩
  rintro ⟨hv, hn⟩
  obtain ⟨r, c, hb, hacc⟩ :=
    getBestMove_accepted g.currentPlayer.asComputer g.board g.currentPlayer.mark (hinv hs)
  refine ⟨r, c, hb, ?_, hacc⟩
  intro input
  unfold TicTacToeGame.chooseMove
  rw [if_pos (by simp [hv, hn]), hb]

theorem computer_always_moves_witness :
    ∃ g, (mainGame 2).start [(1, 1)] = .ok g ∧
      (g.status = .awaitingMove →
        g.board.isFull = false ∧
        ((g.isVsComputer = true ∧ g.currentPlayer.name = "Computer") →
          ∃ r c, g.currentPlayer.asComputer.getBestMove g.board = .ok (some (r, c)) ∧
            (∀ input, g.chooseMove input = .ok (r, c)) ∧
            (g.board.placeMark r c g.currentPlayer.mark).1 = true)) :=
  computer_always_moves [(1, 1)]

/-- C17 (no out-of-range from the heuristic). `wouldWin` and `getBestMove` never fail: every
`getCell` they call gets coordinates from the loop counters, the center or the array
`corners`, all inside `[0, 3)`; so no iteration of `start` fails with the out-of-range
error. -/
theorem getBestMove_never_out_of_range (p : ComputerPlayer) (b : Board) :
    (∃ res, p.getBestMove b = .ok res) ∧
    (∀ (row col : Int) (m : Char), ∃ t, p.wouldWin b row col m = .ok t) ∧
    (∀ i ∈ indices, ∀ j ∈ indices, 0 ≤ i ∧ i < 3 ∧ 0 ≤ j ∧ j < 3 ∧
      ∃ ch, b.getCell i j = .ok ch) ∧
    (∃ ch, b.getCell 1 1 = .ok ch) ∧
    (∀ corner ∈ corners, 0 ≤ corner.1 ∧ corner.1 < 3 ∧ 0 ≤ corner.2 ∧ corner.2 < 3 ∧
      ∃ ch, b.getCell corner.1 corner.2 = .ok ch) ∧
    (∀ (g : TicTacToeGame) (input : Int × Int), g.turn input ≠ .error .outOfRange) := by
  have hcell : ∀ r c : Int, 0 ≤ r → r < 3 → 0 ≤ c → c < 3 → ∃ ch, b.getCell r c = .ok ch := by
    intro r c h1 h2 h3 h4
    have ho : ¬ outside r c := by rw [outside_iff]; omega
    obtain ⟨i, j, rfl, rfl⟩ := exists_fin_of_inside ho
    exact ⟨_, getCell_coe b i j⟩
  refine ⟨⟨_, getBestMove_eq p b⟩, fun row col m => ⟨_, wouldWin_eq p b row col m⟩, ?_, ?_, ?_,
    ?_⟩
  · intro i hi j hj
    rw [indices_eq] at hi hj
    simp only [List.mem_cons, List.mem_singleton, List.not_mem_nil, or_false] at hi hj
    have hi' : 0 ≤ i ∧ i < 3 := by omega
    have hj' : 0 ≤ j ∧ j < 3 := by omega
    exact ⟨hi'.1, hi'.2, hj'.1, hj'.2, hcell i j hi'.1 hi'.2 hj'.1 hj'.2⟩
  · exact hcell 1 1 (by decide) (by decide) (by decide) (by decide)
  · intro corner hc
    unfold corners at hc
    simp only [List.mem_cons, List.mem_singleton, List.not_mem_nil, or_false] at hc
    rcases hc with rfl | rfl | rfl | rfl <;>
      exact ⟨by decide, by decide, by decide, by decide,
        hcell _ _ (by decide) (by decide) (by decide) (by decide)⟩
  · intro g input h
    unfold TicTacToeGame.turn TicTacToeGame.chooseMove at h
    by_cases hc : (g.isVsComputer && g.currentPlayer.name == "Computer") = true
    · rw [if_pos hc, getBestMove_eq] at h
      cases hb : bestMove g.board g.currentPlayer.asComputer.mark with
      | none => rw [hb] at h; cases h
      | some mv => rw [hb] at h; cases h
    · rw [if_neg hc] at h
      cases h


/-! ## Counting moves and lines along a game -/

theorem currentPlayer_mark (g : TicTacToeGame) (hX : g.player1.mark = 'X')
    (hO : g.player2.mark = 'O') :
    g.currentPlayer.mark = 'X' ∨ g.currentPlayer.mark = 'O' := by
  unfold TicTacToeGame.currentPlayer
  cases g.currentIsPlayer1
  · right; simpa using hO
  · left; simpa using hX

theorem currentPlayer_mark_ne (g : TicTacToeGame) (h1 : g.player1.mark ≠ ' ')
    (h2 : g.player2.mark ≠ ' ') : g.currentPlayer.mark ≠ ' ' := by
  unfold TicTacToeGame.currentPlayer
  cases g.currentIsPlayer1
  · simpa using h2
  · simpa using h1

theorem count_playAll (g : TicTacToeGame) (reqs : List (Int × Int))
    (h1 : g.player1.mark ≠ ' ') (h2 : g.player2.mark ≠ ' ') :
    (g.playAll reqs).board.emptyCount + (g.acceptedMoves reqs).length =
      g.board.emptyCount := by
  induction reqs generalizing g with
  | nil => rfl
  | cons req rest ih =>
    by_cases hs : g.status = .awaitingMove
    · rw [playAll_cons_awaiting g req rest hs, acceptedMoves_cons_awaiting g req rest hs]
      obtain ⟨f1, f2, -⟩ := applyMove_fields g req.1 req.2
      have hih := ih (g.applyMove req.1 req.2) (by rw [f1]; exact h1) (by rw [f2]; exact h2)
      rw [applyMove_board] at hih
      cases hacc : (g.board.placeMark req.1 req.2 g.currentPlayer.mark).1 with
      | true =>
        have hdec := emptyCount_placeMark g.board req.1 req.2 g.currentPlayer.mark hacc
          (currentPlayer_mark_ne g h1 h2)
        simp only [if_true, List.length_cons]
        omega
      | false =>
        rw [placeMark_false _ _ _ _ hacc] at hih
        simp only [Bool.false_eq_true, if_false]
        exact hih
    · rw [playAll_cons_ended g req rest hs, acceptedMoves_cons_ended g req rest hs]
      rfl

theorem checkWin_other_false (b : Board) (row col : Int) (m m' : Char) (hne : m' ≠ m)
    (h : (b.placeMark row col m).1 = true) (hold : b.checkWin m' = false) :
    (b.placeMark row col m).2.checkWin m' = false := by
  cases hw : (b.placeMark row col m).2.checkWin m' with
  | false => rfl
  | true =>
    rw [checkWin_of_placeMark b row col m m' hne h hw] at hold
    cases hold

theorem lines_step (g : TicTacToeGame) (row col : Int) (h : LinesInvariant g)
    (hs : g.status = .awaitingMove) : LinesInvariant (g.applyMove row col) := by
  obtain ⟨⟨hX, hO⟩, hA, hD, hW⟩ := h
  obtain ⟨nx, no⟩ := hA hs
  have hXO : ('X' : Char) ≠ 'O' := by decide
  rcases applyMove_cases g row col with
    ⟨-, he⟩ | ⟨h1, hw, he⟩ | ⟨h1, hw, -, he⟩ | ⟨h1, hw, -, he⟩
  · rw [he]
    exact ⟨⟨hX, hO⟩, hA, hD, hW⟩
  · rw [he]
    refine ⟨⟨hX, hO⟩, (fun hh => by cases hh), (fun hh => by cases hh), ?_⟩
    intro w hwon
    injection hwon with hwon
    subst hwon
    rcases currentPlayer_mark g hX hO with hm | hm
    · left
      rw [hm] at hw h1 ⊢
      exact ⟨rfl, hw, checkWin_other_false _ _ _ _ _ hXO.symm h1 no⟩
    · right
      rw [hm] at hw h1 ⊢
      exact ⟨rfl, hw, checkWin_other_false _ _ _ _ _ hXO h1 nx⟩
  · rw [he]
    refine ⟨⟨hX, hO⟩, (fun hh => by cases hh), ?_, (fun w hh => by cases hh)⟩
    intro _
    rcases currentPlayer_mark g hX hO with hm | hm
    · rw [hm] at hw h1 ⊢
      exact ⟨hw, checkWin_other_false _ _ _ _ _ hXO.symm h1 no⟩
    · rw [hm] at hw h1 ⊢
      exact ⟨checkWin_other_false _ _ _ _ _ hXO h1 nx, hw⟩
  · rw [he]
    refine ⟨⟨hX, hO⟩, ?_, (fun hh => by rw [hs] at hh; cases hh),
      (fun w hh => by rw [hs] at hh; cases hh)⟩
    intro _
    rcases currentPlayer_mark g hX hO with hm | hm
    · rw [hm] at hw h1 ⊢
      exact ⟨hw, checkWin_other_false _ _ _ _ _ hXO.symm h1 no⟩
    · rw [hm] at hw h1 ⊢
      exact ⟨checkWin_other_false _ _ _ _ _ hXO h1 nx, hw⟩

theorem checkWin_new (m : Char) (hm : m ≠ ' ') : Board.new.checkWin m = false := by
  cases h : Board.new.checkWin m with
  | false => rfl
  | true =>
    rw [checkWin_iff_hasLine] at h
    obtain ⟨l, hl, hall⟩ := h
    simp only [lines, List.mem_cons, List.mem_singleton, List.not_mem_nil, or_false] at hl
    have h0 : ∃ rc, rc ∈ l := by
      rcases hl with rfl | rfl | rfl | rfl | rfl | rfl | rfl | rfl <;>
        exact ⟨_, List.mem_cons_self _ _⟩
    obtain ⟨rc, hrc⟩ := h0
    have := hall rc hrc
    exact absurd this.symm hm

theorem lines_new (p1 p2 : IPlayer) (v : Bool) (hX : p1.mark = 'X') (hO : p2.mark = 'O') :
    LinesInvariant (TicTacToeGame.new Board.new p1 p2 v) :=
  ⟨⟨hX, hO⟩, fun _ => ⟨checkWin_new 'X' (by decide), checkWin_new 'O' (by decide)⟩,
    (fun hh => by cases hh), (fun w hh => by cases hh)⟩

/-! ## Whole games: claims C18 and C19 -/

/-- C18 (games run to completion). From the constructor's state on the empty board with marks
`X` and `O`, after any sequence of move requests: at most 9 were accepted, the accepted moves
and the blank cells add up to 9, after 9 accepted moves the game has ended (won or draw), the
loop is never awaiting a move on a full board, and a further accepted move strictly decreases
the number of blank cells. -/
theorem game_runs_to_completion (p1 p2 : IPlayer) (v : Bool) (hX : p1.mark = 'X')
    (hO : p2.mark = 'O') (reqs : List (Int × Int)) :
    ((TicTacToeGame.new Board.new p1 p2 v).acceptedMoves reqs).length ≤ 9 ∧
    ((TicTacToeGame.new Board.new p1 p2 v).playAll reqs).board.emptyCount +
      ((TicTacToeGame.new Board.new p1 p2 v).acceptedMoves reqs).length = 9 ∧
    (((TicTacToeGame.new Board.new p1 p2 v).acceptedMoves reqs).length = 9 →
      (∃ w, ((TicTacToeGame.new Board.new p1 p2 v).playAll reqs).status = .won w) ∨
      ((TicTacToeGame.new Board.new p1 p2 v).playAll reqs).status = .draw) ∧
    (((TicTacToeGame.new Board.new p1 p2 v).playAll reqs).status = .awaitingMove →
      ((TicTacToeGame.new Board.new p1 p2 v).playAll reqs).board.isFull = false) ∧
    (∀ row col : Int,
      ((TicTacToeGame.new Board.new p1 p2 v).playAll reqs).status = .awaitingMove →
      (((TicTacToeGame.new Board.new p1 p2 v).playAll reqs).board.placeMark row col
        ((TicTacToeGame.new Board.new p1 p2 v).playAll reqs).currentPlayer.mark).1 = true →
      ((((TicTacToeGame.new Board.new p1 p2 v).playAll reqs).applyMove row col).board.emptyCount
        < ((TicTacToeGame.new Board.new p1 p2 v).playAll reqs).board.emptyCount)) := by
  have h1 : (TicTacToeGame.new Board.new p1 p2 v).player1.mark ≠ ' ' := by
    show p1.mark ≠ ' '
    rw [hX]; decide
  have h2 : (TicTacToeGame.new Board.new p1 p2 v).player2.mark ≠ ' ' := by
    show p2.mark ≠ ' '
    rw [hO]; decide
  have hcount := count_playAll (TicTacToeGame.new Board.new p1 p2 v) reqs h1 h2
  have hnew : (TicTacToeGame.new Board.new p1 p2 v).board.emptyCount = 9 := emptyCount_new
  rw [hnew] at hcount
  have hnf := playAll_invariant NotFullWhileAwaiting notFull_step
    (TicTacToeGame.new Board.new p1 p2 v) reqs (notFull_new p1 p2 v)
  have hmarks := playAll_invariant
    (fun g => g.player1.mark ≠ ' ' ∧ g.player2.mark ≠ ' ')
    (fun g row col hg _ => by
      obtain ⟨f1, f2, -⟩ := applyMove_fields g row col
      rw [f1, f2]; exact hg)
    (TicTacToeGame.new Board.new p1 p2 v) reqs ⟨h1, h2⟩
  generalize (TicTacToeGame.new Board.new p1 p2 v).playAll reqs = g at hcount hnf hmarks ⊢
  generalize ((TicTacToeGame.new Board.new p1 p2 v).acceptedMoves reqs).length = n at hcount ⊢
  refine ⟨by omega, hcount, ?_, hnf, ?_⟩
  · intro hn
    have hfull : g.board.isFull = true := (isFull_iff_emptyCount g.board).2 (by omega)
    cases hs : g.status with
    | awaitingMove =>
      rw [hnf hs] at hfull
      cases hfull
    | won w => exact Or.inl ⟨w, rfl⟩
    | draw => exact Or.inr rfl
  · intro row col _ hacc
    rw [applyMove_board]
    have := emptyCount_placeMark g.board row col g.currentPlayer.mark hacc
      (currentPlayer_mark_ne g hmarks.1 hmarks.2)
    omega

theorem game_runs_to_completion_witness :
    (∃ w, ((mainGame 1).playAll
        [(0, 0), (0, 1), (0, 2), (1, 1), (1, 0), (1, 2), (2, 1), (2, 0), (2, 2)]).status
          = .won w) ∨
      ((mainGame 1).playAll
        [(0, 0), (0, 1), (0, 2), (1, 1), (1, 0), (1, 2), (2, 1), (2, 0), (2, 2)]).status
          = .draw :=
  (game_runs_to_completion ⟨"Player 1", 'X'⟩ ⟨"Player 2", 'O'⟩ false rfl rfl
    [(0, 0), (0, 1), (0, 2), (1, 1), (1, 0), (1, 2), (2, 1), (2, 0), (2, 2)]).2.2.1 (by decide)

/-- C19 (no line while a move is awaited). From the constructor's state on the empty board with
marks `X` and `O`, after any sequence of move requests, and so after any iterations of `start`:
while a move is awaited neither `X` nor `O` has a line, so after an accepted move the mark of
the player who did not move has no line; and when the game has ended in `won`, the winner's
mark has a line and the other mark has none. -/
theorem no_line_while_awaiting (p1 p2 : IPlayer) (v : Bool) (hX : p1.mark = 'X')
    (hO : p2.mark = 'O') :
    (∀ reqs : List (Int × Int),
      LinesInvariant ((TicTacToeGame.new Board.new p1 p2 v).playAll reqs)) ∧
    (∀ (inputs : List (Int × Int)) (g : TicTacToeGame),
      (TicTacToeGame.new Board.new p1 p2 v).start inputs = .ok g → LinesInvariant g) ∧
    (∀ g : TicTacToeGame, LinesInvariant g →
      (g.status = .awaitingMove →
        g.board.checkWin 'X' = false ∧ g.board.checkWin 'O' = false) ∧
      (g.status = .awaitingMove → ∀ row col : Int,
        (g.board.placeMark row col g.currentPlayer.mark).1 = true →
        ∀ m : Char, (m = 'X' ∨ m = 'O') → m ≠ g.currentPlayer.mark →
          (g.applyMove row col).board.checkWin m = false) ∧
      (∀ w, g.status = .won w →
        (w.mark = 'X' ∧ g.board.checkWin 'X' = true ∧ g.board.checkWin 'O' = false) ∨
        (w.mark = 'O' ∧ g.board.checkWin 'O' = true ∧ g.board.checkWin 'X' = false))) := by
  refine ⟨?_, ?_, ?_⟩
  · intro reqs
    exact playAll_invariant LinesInvariant lines_step _ reqs (lines_new p1 p2 v hX hO)
  · intro inputs g hg
    exact start_invariant LinesInvariant lines_step _ g inputs (lines_new p1 p2 v hX hO) hg
  · intro g hinv
    refine ⟨hinv.2.1, ?_, hinv.2.2.2⟩
    intro hs row col hacc m hm hne
    obtain ⟨nx, no⟩ := hinv.2.1 hs
    rw [applyMove_board]
    rcases hm with rfl | rfl
    · exact checkWin_other_false _ _ _ _ _ hne hacc nx
    · exact checkWin_other_false _ _ _ _ _ hne hacc no

theorem no_line_while_awaiting_witness :
    LinesInvariant ((mainGame 1).playAll [(1, 1), (0, 0), (0, 2), (2, 0), (1, 0)]) :=
  (no_line_while_awaiting ⟨"Player 1", 'X'⟩ ⟨"Player 2", 'O'⟩ false rfl rfl).1
    [(1, 1), (0, 0), (0, 2), (2, 0), (1, 0)]

/-! ## Accepted placements with non-blank marks -/

theorem accepted_cons_true (b : Board) (op : Placement) (rest : List Placement)
    (h : (b.placeMark op.1 op.2.1 op.2.2).1 = true) :
    b.accepted (op :: rest) = op :: (b.placeMark op.1 op.2.1 op.2.2).2.accepted rest := by
  rw [Board.accepted, if_pos h]

theorem accepted_cons_false (b : Board) (op : Placement) (rest : List Placement)
    (h : (b.placeMark op.1 op.2.1 op.2.2).1 = false) :
    b.accepted (op :: rest) = b.accepted rest := by
  rw [Board.accepted, if_neg (by rw [h]; decide), placeMark_false b _ _ _ h]

theorem placeAll_cons (b : Board) (op : Placement) (rest : List Placement) :
    b.placeAll (op :: rest) = (b.placeMark op.1 op.2.1 op.2.2).2.placeAll rest := rfl

/-- A cell blank after an accepted placement of a non-blank mark was blank before and is not
the cell of the placement. -/
theorem emptyAt_before (b : Board) (op : Placement) (r c : Int)
    (h : (b.placeMark op.1 op.2.1 op.2.2).1 = true) (hm : op.2.2 ≠ ' ')
    (he : (b.placeMark op.1 op.2.1 op.2.2).2.emptyAt r c) :
    b.emptyAt r c ∧ ¬ (op.1 = r ∧ op.2.1 = c) := by
  obtain ⟨i, j, rfl, rfl⟩ := exists_fin_of_inside (emptyAt_inside he)
  rw [emptyAt_coe, placeMark_true_grid b _ _ _ h] at he
  by_cases hc : op.1 = (i.val : Int) ∧ op.2.1 = (j.val : Int)
  · rw [if_pos hc] at he
    exact absurd he hm
  · rw [if_neg hc] at he
    exact ⟨(emptyAt_coe b i j).2 he, hc⟩

theorem accepted_blank (b : Board) (ops : List Placement)
    (hm : ∀ op ∈ b.accepted ops, op.2.2 ≠ ' ') :
    ∀ op ∈ b.accepted ops, b.emptyAt op.1 op.2.1 := by
  induction ops generalizing b with
  | nil => intro op hop; cases hop
  | cons op rest ih =>
    cases hok : (b.placeMark op.1 op.2.1 op.2.2).1 with
    | false =>
      rw [accepted_cons_false b op rest hok] at hm ⊢
      exact ih b hm
    | true =>
      rw [accepted_cons_true b op rest hok] at hm ⊢
      intro op' hop'
      rcases List.mem_cons.1 hop' with rfl | hin
      · exact (placeMark_true_iff b _ _ _).1 hok
      · have hb' := ih _ (fun o ho => hm o (List.mem_cons_of_mem _ ho)) op' hin
        exact (emptyAt_before b op _ _ hok (hm op (List.mem_cons_self _ _)) hb').1

theorem accepted_nodup (b : Board) (ops : List Placement)
    (hm : ∀ op ∈ b.accepted ops, op.2.2 ≠ ' ') :
    ((b.accepted ops).map (fun op => (op.1, op.2.1))).Nodup := by
  induction ops generalizing b with
  | nil => exact List.nodup_nil
  | cons op rest ih =>
    cases hok : (b.placeMark op.1 op.2.1 op.2.2).1 with
    | false =>
      rw [accepted_cons_false b op rest hok] at hm ⊢
      exact ih b hm
    | true =>
      rw [accepted_cons_true b op rest hok] at hm ⊢
      have hm' : ∀ o ∈ (b.placeMark op.1 op.2.1 op.2.2).2.accepted rest, o.2.2 ≠ ' ' :=
        fun o ho => hm o (List.mem_cons_of_mem _ ho)
      rw [List.map_cons, List.nodup_cons]
      refine ⟨?_, ih _ hm'⟩
      intro hmem
      obtain ⟨op', hop', heq⟩ := List.mem_map.1 hmem
      have hb' := accepted_blank _ rest hm' op' hop'
      have := (emptyAt_before b op _ _ hok (hm op (List.mem_cons_self _ _)) hb').2
      apply this
      have h1 := congrArg Prod.fst heq
      have h2 := congrArg Prod.snd heq
      exact ⟨h1.symm, h2.symm⟩

theorem lastMarkOn_none_iff (r c : Int) (l : List Placement) :
    lastMarkOn r c l = none ↔ ∀ op ∈ l, ¬ (op.1 = r ∧ op.2.1 = c) := by
  induction l with
  | nil => simp [lastMarkOn]
  | cons a rest ih =>
    rw [lastMarkOn_cons]
    cases hl : lastMarkOn r c rest with
    | some m =>
      simp only [false_iff, reduceCtorEq]
      intro hall
      have := ih.2 (fun o ho => hall o (List.mem_cons_of_mem _ ho))
      rw [hl] at this
      cases this
    | none =>
      have hrest := ih.1 hl
      by_cases hc : a.1 = r ∧ a.2.1 = c
      · simp only [if_pos hc, false_iff, reduceCtorEq]
        intro hall
        exact hall a (List.mem_cons_self _ _) hc
      · simp only [if_neg hc, true_iff]
        intro o ho
        rcases List.mem_cons.1 ho with rfl | hin
        · exact hc
        · exact hrest o hin

theorem lastMarkOn_some_mem (r c : Int) (l : List Placement) (m : Char)
    (h : lastMarkOn r c l = some m) : ∃ op ∈ l, op.1 = r ∧ op.2.1 = c ∧ op.2.2 = m := by
  induction l with
  | nil => cases h
  | cons a rest ih =>
    rw [lastMarkOn_cons] at h
    cases hl : lastMarkOn r c rest with
    | some m' =>
      rw [hl] at h
      obtain ⟨op, hop, hprop⟩ := ih (by rw [hl]; exact h)
      exact ⟨op, List.mem_cons_of_mem _ hop, hprop⟩
    | none =>
      rw [hl] at h
      by_cases hc : a.1 = r ∧ a.2.1 = c
      · simp only [if_pos hc, Option.some.injEq] at h
        exact ⟨a, List.mem_cons_self _ _, hc.1, hc.2, h⟩
      · simp only [if_neg hc, reduceCtorEq] at h

theorem lastMarkOn_of_nodup (l : List Placement)
    (hnd : (l.map (fun op => (op.1, op.2.1))).Nodup) (op : Placement) (hop : op ∈ l) :
    lastMarkOn op.1 op.2.1 l = some op.2.2 := by
  induction l with
  | nil => cases hop
  | cons a rest ih =>
    rw [List.map_cons, List.nodup_cons] at hnd
    rw [lastMarkOn_cons]
    rcases List.mem_cons.1 hop with rfl | hin
    · have hnone : lastMarkOn op.1 op.2.1 rest = none := by
        rw [lastMarkOn_none_iff]
        intro o ho hc
        apply hnd.1
        refine List.mem_map.2 ⟨o, ho, ?_⟩
        rw [hc.1, hc.2]
      rw [hnone]
      simp
    · rw [ih hnd.2 hin]

theorem count_placeAll (b : Board) (ops : List Placement)
    (hm : ∀ op ∈ b.accepted ops, op.2.2 ≠ ' ') :
    (b.placeAll ops).emptyCount + (b.accepted ops).length = b.emptyCount := by
  induction ops generalizing b with
  | nil => rfl
  | cons op rest ih =>
    rw [placeAll_cons]
    cases hok : (b.placeMark op.1 op.2.1 op.2.2).1 with
    | false =>
      rw [accepted_cons_false b op rest hok] at hm ⊢
      rw [placeMark_false b _ _ _ hok]
      exact ih b hm
    | true =>
      rw [accepted_cons_true b op rest hok] at hm ⊢
      have hih := ih _ (fun o ho => hm o (List.mem_cons_of_mem _ ho))
      have hdec := emptyCount_placeMark b _ _ _ hok (hm op (List.mem_cons_self _ _))
      rw [List.length_cons]
      omega

/-! ## Round trip and the probe: claims C11 and C20 -/

/-- C11, the claim as written fails: on the fresh board the call `placeMark(0, 0, ' ')` returns
`true` and the cell it names stays blank; nine such calls all return `true` and the board is
not full. -/
theorem placements_blank_mark_counterexample :
    (Board.new.accepted [(0, 0, ' ')] = [(0, 0, ' ')] ∧
      (Board.new.placeAll [(0, 0, ' ')]).getCell 0 0 = .ok ' ') ∧
    (Board.new.accepted (List.replicate 9 (0, 0, ' ')) = List.replicate 9 (0, 0, ' ') ∧
      (List.replicate 9 ((0 : Int), (0 : Int), ' ')).length = 9 ∧
      (Board.new.placeAll (List.replicate 9 (0, 0, ' '))).isFull = false) := by
  decide

/-- C11, amended. On the fresh board, after any sequence of `placeMark` calls that each returned
`true` and whose marks are not the blank character: the non-blank cells are exactly the cells
named in the calls, each cell named holds the mark of its call, no cell is named twice, and
`isFull` is true exactly when 9 calls were made. -/
theorem placements_round_trip (ops : List Placement)
    (hacc : Board.new.accepted ops = ops) (hm : ∀ op ∈ ops, op.2.2 ≠ ' ') :
    (∀ r c : Int, (∃ ch, (Board.new.placeAll ops).getCell r c = .ok ch ∧ ch ≠ ' ') ↔
      ∃ op ∈ ops, op.1 = r ∧ op.2.1 = c) ∧
    (∀ op ∈ ops, (Board.new.placeAll ops).getCell op.1 op.2.1 = .ok op.2.2) ∧
    (ops.map (fun op => (op.1, op.2.1))).Nodup ∧
    ((Board.new.placeAll ops).isFull = true ↔ ops.length = 9) := by
  have hm' : ∀ op ∈ Board.new.accepted ops, op.2.2 ≠ ' ' := by rw [hacc]; exact hm
  have hnd := accepted_nodup Board.new ops hm'
  have hblank := accepted_blank Board.new ops hm'
  have hcount := count_placeAll Board.new ops hm'
  rw [hacc] at hnd hblank hcount
  rw [emptyCount_new] at hcount
  have hgrid : ∀ i j : Fin BOARD_SIZE, (Board.new.placeAll ops).grid i j =
      match lastMarkOn (i.val : Int) (j.val : Int) ops with
      | some m => m
      | none => ' ' := by
    intro i j
    have := placeAll_grid Board.new ops i j
    rw [hacc] at this
    exact this
  refine ⟨?_, ?_, hnd, ?_⟩
  · intro r c
    constructor
    · rintro ⟨ch, hch, hne⟩
      have ho : ¬ outside r c := by
        intro ho
        rw [getCell_outside _ ho] at hch
        cases hch
      obtain ⟨i, j, rfl, rfl⟩ := exists_fin_of_inside ho
      rw [getCell_coe, hgrid] at hch
      cases hl : lastMarkOn (i.val : Int) (j.val : Int) ops with
      | none =>
        rw [hl] at hch
        injection hch with hch
        exact absurd hch.symm hne
      | some m =>
        obtain ⟨op, hop, h1, h2, -⟩ := lastMarkOn_some_mem _ _ ops m hl
        exact ⟨op, hop, h1, h2⟩
    · rintro ⟨op, hop, rfl, rfl⟩
      obtain ⟨i, j, hi, hj⟩ := exists_fin_of_inside (emptyAt_inside (hblank op hop))
      refine ⟨op.2.2, ?_, hm op hop⟩
      rw [getCell_lit _ i j _ _ hi hj, hgrid, ← hi, ← hj, lastMarkOn_of_nodup ops hnd op hop]
  · intro op hop
    obtain ⟨i, j, hi, hj⟩ := exists_fin_of_inside (emptyAt_inside (hblank op hop))
    rw [getCell_lit _ i j _ _ hi hj, hgrid, ← hi, ← hj, lastMarkOn_of_nodup ops hnd op hop]
  · rw [isFull_iff_emptyCount]
    omega

theorem placements_round_trip_witness :
    (Board.new.placeAll [(1, 1, 'X'), (0, 0, 'O'), (2, 1, 'X')]).getCell 2 1 = .ok 'X' ∧
      ((Board.new.placeAll [(1, 1, 'X'), (0, 0, 'O'), (2, 1, 'X')]).isFull = true ↔
        [((1 : Int), (1 : Int), 'X'), (0, 0, 'O'), (2, 1, 'X')].length = 9) :=
  have h := placements_round_trip [(1, 1, 'X'), (0, 0, 'O'), (2, 1, 'X')] (by decide)
    (by decide)
  ⟨h.2.1 (2, 1, 'X') (by decide), h.2.2.2⟩

/-- C20 (the probe is a pure function of the snapshot). The copy loop of `wouldWin` yields a
board equal to the given one; `wouldWin` is that copy followed by `placeMark` and `checkWin` on
the copy; and for an in-range cell its result is: the cell is blank and `mark` has a line on
the snapshot with that cell set to `mark`. The embedding of `wouldWin` takes the snapshot as a
value and returns only the flag, as the `const IBoard&` of the source. -/
theorem wouldWin_pure (p : ComputerPlayer) (board : Board) (i j : Fin BOARD_SIZE)
    (mark : Char) :
    ComputerPlayer.copyBoard board = .ok board ∧
    (∀ (row col : Int) (m : Char), p.wouldWin board row col m =
      match ComputerPlayer.copyBoard board with
      | .error e => .error e
      | .ok tempBoard =>
        if (tempBoard.placeMark row col m).1 then
          .ok ((tempBoard.placeMark row col m).2.checkWin m)
        else .ok false) ∧
    p.wouldWin board (i.val : Int) (j.val : Int) mark = .ok (wouldWinPure board i j mark) ∧
    (∀ i' j' : Fin BOARD_SIZE, wouldWinPure board i' j' mark = true ↔
      (board.getCell (i'.val : Int) (j'.val : Int) = .ok ' ' ∧
        (board.assign i' j' mark).checkWin mark = true)) := by
  refine ⟨copy_loop board, fun _ _ _ => rfl, ?_, ?_⟩
  · rw [wouldWin_eq, placeMark_coe]
    unfold wouldWinPure
    by_cases h : board.grid i j = ' ' <;> simp [h]
  · intro i' j'
    unfold wouldWinPure
    rw [getCell_coe]
    by_cases h : board.grid i' j' = ' ' <;> simp [h]

theorem wouldWin_pure_witness :
    (ComputerPlayer.new 'X').wouldWin boardB 0 2 'X' = .ok true ∧
      (ComputerPlayer.new 'X').wouldWin boardB 0 0 'X' = .ok false :=
  ⟨(wouldWin_pure (ComputerPlayer.new 'X') boardB 0 2 'X').2.2.1,
    (wouldWin_pure (ComputerPlayer.new 'X') boardB 0 0 'X').2.2.1⟩

end TicTacToe
